import Mathlib

/-!
Verification of the flog-otlp scenario engine (`src/flog_otlp/scenario.py` and
`src/flog_otlp/parser.py`) against its natural-language specification.

Strings are modelled as `List Char` (ASCII reading of the Python text
operations), Python floats as exact rationals `ℚ` (every value a claim
exercises is exactly representable), Python ints as `ℤ`, and the process-wide
random source as an explicit stream of draws threaded through the functions
that consume randomness.  Fallible Python code is modelled with
`Except`/`Option`.
-/

namespace FlogOtlp

/-- ASCII whitespace, the characters Python's `str.strip` and the regex class
backslash-s remove in the inputs modelled here. -/
def isWS (c : Char) : Bool :=
  c = ' ' || c = '\t' || c = '\n' || c = '\r' || c = '\x0b' || c = '\x0c'

/-- Model of Python `str.strip()`: drop leading and trailing whitespace. -/
def stripWS (s : List Char) : List Char :=
  ((s.dropWhile isWS).reverse.dropWhile isWS).reverse

/-- Digit list to natural number, most significant digit first. -/
def digitsToNat (ds : List Char) : ℕ :=
  ds.foldl (fun a c => a * 10 + (c.toNat - 48)) 0

/-- Value of the regex group `(\d+(\.\d+)?)` as an exact rational: integer
digits plus an optional fractional digit group. -/
def decimalValue (intDs fracDs : List Char) : ℚ :=
  (digitsToNat intDs : ℚ) + (digitsToNat fracDs : ℚ) / (10 ^ fracDs.length)

/-- After the numeric part of the duration regex, match the tail
`\s*([smh]?)$` and return the unit multiplier (1, 60 or 3600 seconds). -/
def matchUnitTail (s : List Char) : Option ℚ :=
  match s.dropWhile isWS with
  | [] => some 1
  | [c] =>
    if c = 's' then some 1
    else if c = 'm' then some 60
    else if c = 'h' then some 3600
    else none
  | _ => none

/-- Matcher for the duration regex `^(\d+(\.\d+)?)\s*([smh]?)$` on an
already-lowercased string, returning the parsed value in seconds
(numeric value times the unit multiplier), or `none` when the string does
not match. -/
def matchDuration (s : List Char) : Option ℚ :=
  let intDs := s.takeWhile Char.isDigit
  let rest := s.dropWhile Char.isDigit
  if intDs = [] then none
  else
    match rest with
    | '.' :: r =>
      let fracDs := r.takeWhile Char.isDigit
      if fracDs = [] then none
      else
        match matchUnitTail (r.dropWhile Char.isDigit) with
        | some mult => some (decimalValue intDs fracDs * mult)
        | none => none
    | _ =>
      match matchUnitTail rest with
      | some mult => some (decimalValue intDs [] * mult)
      | none => none

/-- Input to `ScenarioStep._parse_duration`: either a numeric value (an
`isinstance(_, (int, float))` check in the source) or a string. -/
inductive DurationInput
| num (q : ℚ)
| str (s : List Char)

/-- `ScenarioStep._parse_duration` on a string: strip whitespace, lowercase,
match the duration regex, and either return the value in seconds or raise
`ValueError` carrying the normalized offending input.  (The source's final
`if unit not in unit_multipliers` check is unreachable because the regex
already restricts the unit.) -/
def parseDurationStr (s : List Char) : Except (List Char) ℚ :=
  let t := (stripWS s).map Char.toLower
  match matchDuration t with
  | some v => Except.ok v
  | none => Except.error t

/-- `ScenarioStep._parse_duration`: numeric input is returned as-is as a
float; strings go through the regex path. -/
def parseDuration : DurationInput → Except (List Char) ℚ
| DurationInput.num q => Except.ok q
| DurationInput.str s => parseDurationStr s

/-- The duration acceptance relation exactly as the claim words it: the value
of a string matching `^(\d+(\.\d+)?)\s*([smh]?)$` case-insensitively (no
whitespace stripping).  Used as the spec-side definition to compare with the
implementation. -/
def claimDurationValue (s : List Char) : Option ℚ :=
  matchDuration (s.map Char.toLower)

end FlogOtlp

deriving instance DecidableEq for Except

namespace FlogOtlp

/-- C5 (counterexample): the input string with surrounding spaces does not
match the claim's regex `^(\d+(\.\d+)?)\s*([smh]?)$` (even case-insensitively),
so the claim requires a format error; but the code strips whitespace before
matching and returns 30.0 seconds. -/
theorem c5_duration_counterexample :
    parseDuration (DurationInput.str (" 30s ".toList)) = Except.ok 30 ∧
    claimDurationValue (" 30s ".toList) = none := by
  constructor
  · show Except.ok (decimalValue ['3', '0'] [] * 1) = Except.ok 30
    have h : digitsToNat ['3', '0'] = 30 := by decide
    have h0 : digitsToNat [] = 0 := by decide
    norm_num [decimalValue, h, h0]
  · decide

/-- C5 (amended): numeric input is returned as-is as a float; a string is
first stripped of surrounding whitespace, and then the claim's contract holds:
it parses to value times the unit multiplier exactly when its stripped form
matches `^(\d+(\.\d+)?)\s*([smh]?)$` case-insensitively, and every other
string raises a format error carrying the (normalized) offending input; in
particular parse("30s")=30.0, parse("5m")=300.0, parse("1h")=3600.0,
parse(45)=45.0, and parse("invalid"), parse("10x") are format errors. -/
theorem c5_duration_amended :
    (∀ q : ℚ, parseDuration (DurationInput.num q) = Except.ok q) ∧
    (∀ s v, claimDurationValue (stripWS s) = some v →
      parseDuration (DurationInput.str s) = Except.ok v) ∧
    (∀ s, claimDurationValue (stripWS s) = none →
      parseDuration (DurationInput.str s) = Except.error ((stripWS s).map Char.toLower)) ∧
    parseDuration (DurationInput.str ("30s".toList)) = Except.ok 30 ∧
    parseDuration (DurationInput.str ("5m".toList)) = Except.ok 300 ∧
    parseDuration (DurationInput.str ("1h".toList)) = Except.ok 3600 ∧
    parseDuration (DurationInput.num 45) = Except.ok 45 ∧
    parseDuration (DurationInput.str ("invalid".toList)) = Except.error ("invalid".toList) ∧
    parseDuration (DurationInput.str ("10x".toList)) = Except.error ("10x".toList) := by
  refine ⟨fun q => rfl, fun s v h => ?_, fun s h => ?_, ?_, ?_, ?_, rfl, by decide, by decide⟩
  · unfold claimDurationValue at h
    show (match matchDuration ((stripWS s).map Char.toLower) with
      | some v => Except.ok v
      | none => Except.error ((stripWS s).map Char.toLower)) = Except.ok v
    rw [h]
  · unfold claimDurationValue at h
    show (match matchDuration ((stripWS s).map Char.toLower) with
      | some v => Except.ok v
      | none => Except.error ((stripWS s).map Char.toLower)) =
        Except.error ((stripWS s).map Char.toLower)
    rw [h]
  · show Except.ok (decimalValue ['3', '0'] [] * 1) = Except.ok 30
    have h : digitsToNat ['3', '0'] = 30 := by decide
    have h0 : digitsToNat [] = 0 := by decide
    norm_num [decimalValue, h, h0]
  · show Except.ok (decimalValue ['5'] [] * 60) = Except.ok 300
    have h : digitsToNat ['5'] = 5 := by decide
    have h0 : digitsToNat [] = 0 := by decide
    norm_num [decimalValue, h, h0]
  · show Except.ok (decimalValue ['1'] [] * 3600) = Except.ok 3600
    have h : digitsToNat ['1'] = 1 := by decide
    have h0 : digitsToNat [] = 0 := by decide
    norm_num [decimalValue, h, h0]

/-- C5 witness: the amended contract's conditional clauses applied at the
concrete inputs "5m" (matching, value 300) and "10x" (non-matching). -/
theorem c5_duration_amended_witness :
    parseDuration (DurationInput.str ("5m".toList)) = Except.ok 300 ∧
    parseDuration (DurationInput.str ("10x".toList)) =
      Except.error ((stripWS ("10x".toList)).map Char.toLower) := by
  constructor
  · refine c5_duration_amended.2.1 ("5m".toList) 300 ?_
    show some (decimalValue ['5'] [] * 60) = some 300
    have h : digitsToNat ['5'] = 5 := by decide
    have h0 : digitsToNat [] = 0 := by decide
    norm_num [decimalValue, h, h0]
  · exact c5_duration_amended.2.2.1 ("10x".toList) (by decide)

end FlogOtlp

namespace FlogOtlp

/-- The double-quote character. -/
def dquote : Char := Char.ofNat 34

/-- The single-quote character. -/
def squote : Char := Char.ofNat 39

/-- Python float values distinguishable by `float(str)`: finite rationals plus
the special values. -/
inductive PyFloat
| fin (q : ℚ)
| inf
| ninf
| nan
deriving DecidableEq

/-- Dynamically-typed values produced by parse_key_value_pairs. -/
inductive PyVal
| pybool (b : Bool)
| pyint (n : ℤ)
| pyfloat (f : PyFloat)
| pystr (s : List Char)
deriving DecidableEq

/-- Split a string at the first occurrence of a character, like Python's
`split(ch, 1)` when it succeeds. -/
def splitFirstAt (ch : Char) : List Char → Option (List Char × List Char)
| [] => none
| c :: rest =>
  if c = ch then some ([], rest)
  else
    match splitFirstAt ch rest with
    | none => none
    | some (a, b) => some (c :: a, b)

/-- Continuation of a numeric digit group in Python's `int`/`float` grammar:
single underscores are allowed strictly between digits. -/
def digitsUSTail : List Char → Bool
| [] => true
| ['_'] => false
| '_' :: c :: rest => c.isDigit && digitsUSTail rest
| c :: rest => c.isDigit && digitsUSTail rest

/-- A nonempty digit group, single underscores allowed between digits. -/
def digitsUSValid : List Char → Bool
| [] => false
| c :: rest => c.isDigit && digitsUSTail rest

/-- Numeric value of a digit group, ignoring underscores. -/
def usDigitsVal (s : List Char) : ℕ :=
  digitsToNat (s.filter (fun c => c != '_'))

/-- An optionally signed digit group as an integer. -/
def signedDigits : List Char → Option ℤ
| '+' :: r => if digitsUSValid r then some (usDigitsVal r) else none
| '-' :: r => if digitsUSValid r then some (-(usDigitsVal r : ℤ)) else none
| r => if digitsUSValid r then some (usDigitsVal r) else none

/-- Model of Python `int(str)` (ASCII digits): strip whitespace, optional
sign, digits with single underscores between digits. -/
def pyIntOfString (s : List Char) : Option ℤ :=
  signedDigits (stripWS s)

/-- Mantissa of a Python float literal: digits, or digits '.' digits with at
least one digit present overall. -/
def pyMantissa (m : List Char) : Option ℚ :=
  match splitFirstAt '.' m with
  | none => if digitsUSValid m then some (usDigitsVal m) else none
  | some (ip, fp) =>
    if (ip.isEmpty || digitsUSValid ip) && (fp.isEmpty || digitsUSValid fp)
        && !(ip.isEmpty && fp.isEmpty) then
      some ((usDigitsVal ip : ℚ) + (usDigitsVal fp : ℚ) / 10 ^ (fp.filter (fun c => c != '_')).length)
    else none

/-- Finite magnitude of a Python float literal, with optional exponent. -/
def pyFloatMag (r : List Char) : Option ℚ :=
  match splitFirstAt 'e' r with
  | none => pyMantissa r
  | some (m, ex) =>
    match pyMantissa m, signedDigits ex with
    | some q, some z => some (q * (10 : ℚ) ^ z)
    | _, _ => none

/-- Signless part of Python `float(str)` on an already-lowercased string. -/
def pyFloatSignless (neg : Bool) (r : List Char) : Option PyFloat :=
  if r = ("inf".toList) || r = ("infinity".toList) then
    some (if neg then PyFloat.ninf else PyFloat.inf)
  else if r = ("nan".toList) then some PyFloat.nan
  else
    match pyFloatMag r with
    | some q => some (PyFloat.fin (if neg then -q else q))
    | none => none

/-- Model of Python `float(str)` (ASCII): strip whitespace, lowercase,
optional sign, then finite literal or inf/infinity/nan. -/
def pyFloatOfString (s : List Char) : Option PyFloat :=
  match (stripWS s).map Char.toLower with
  | '+' :: r => pyFloatSignless false r
  | '-' :: r => pyFloatSignless true r
  | r => pyFloatSignless false r

/-- `s.startswith(q) and s.endswith(q)` on a character.  As in Python, a
one-character string passes the test for that character. -/
def startsEndsWith (s : List Char) (q : Char) : Bool :=
  s.head? = some q && s.getLast? = some q

/-- The surrounding-quote removal of parse_key_value_pairs: when the string
starts and ends with the same quote character, drop the first and last
character. -/
def stripQuotes (s : List Char) : List Char :=
  if startsEndsWith s dquote || startsEndsWith s squote then (s.drop 1).dropLast else s

/-- Lowercase every character, the model of Python `str.lower` (ASCII). -/
def lowerList (s : List Char) : List Char := s.map Char.toLower

/-- Type inference of parse_key_value_pairs: boolean literal, then integer,
then float, then the string itself. -/
def inferValue (v : List Char) : PyVal :=
  if lowerList v = ("true".toList) then PyVal.pybool true
  else if lowerList v = ("false".toList) then PyVal.pybool false
  else
    match pyIntOfString v with
    | some n => PyVal.pyint n
    | none =>
      match pyFloatOfString v with
      | some f => PyVal.pyfloat f
      | none => PyVal.pystr v

/-- Python dicts modelled as association lists in insertion order. -/
abbrev Dict := List (List Char × PyVal)

/-- `d[k] = v` on a Python dict: overwrite in place if the key exists,
otherwise append. -/
def dictSet (d : Dict) (k : List Char) (v : PyVal) : Dict :=
  if d.any (fun kv => kv.1 = k) then d.map (fun kv => if kv.1 = k then (k, v) else kv)
  else d ++ [(k, v)]

/-- Processing of one item of parse_key_value_pairs: `None` when the item has
no '=' (the item is skipped with a warning), otherwise the key and the
inferred value, each whitespace-stripped and quote-stripped. -/
def processItem (item : List Char) : Option (List Char × PyVal) :=
  match splitFirstAt '=' item with
  | none => none
  | some (k, v) => some (stripQuotes (stripWS k), inferValue (stripQuotes (stripWS v)))

/-- `parse_key_value_pairs` from parser.py. -/
def parse_key_value_pairs (items : List (List Char)) : Dict :=
  items.foldl (fun d item =>
    match processItem item with
    | none => d
    | some (k, v) => dictSet d k v) []


/-- `splitFirstAt` fails exactly when the character does not occur. -/
theorem splitFirstAt_eq_none (ch : Char) (s : List Char) :
    splitFirstAt ch s = none ↔ ch ∉ s := by
  induction s with
  | nil => simp [splitFirstAt]
  | cons c rest ih =>
    by_cases hc : c = ch
    · subst hc
      simp [splitFirstAt]
    · unfold splitFirstAt
      rw [if_neg hc]
      cases h : splitFirstAt ch rest with
      | none =>
        simp only [h, true_iff] at ih
        constructor
        · intro _ hmem
          rcases List.mem_cons.mp hmem with h1 | h2
          · exact hc h1.symm
          · exact ih h2
        · intro _
          rfl
      | some p =>
        have hmem : ch ∈ rest := by
          by_contra hnot
          rw [ih.mpr hnot] at h
          cases h
        apply iff_of_false
        · cases p
          simp
        · intro hnot
          exact hnot (List.mem_cons_of_mem c hmem)

/-- Splitting at the first separator placed after a separator-free prefix. -/
theorem splitFirstAt_append (ch : Char) (k rest : List Char) (hk : ch ∉ k) :
    splitFirstAt ch (k ++ ch :: rest) = some (k, rest) := by
  induction k with
  | nil => simp [splitFirstAt]
  | cons c kt ih =>
    have hc : ¬ c = ch := fun h => hk (h ▸ List.mem_cons_self c kt)
    have hkt : ch ∉ kt := fun h => hk (List.mem_cons_of_mem c h)
    unfold splitFirstAt
    simp only [List.cons_append]
    rw [if_neg hc, ih hkt]

/-- Stripping whitespace from a string whose first and last characters are
not whitespace is the identity. -/
theorem stripWS_of_bounds (c d : Char) (l : List Char)
    (hc : isWS c = false) (hd : isWS d = false) :
    stripWS (c :: l ++ [d]) = c :: l ++ [d] := by
  unfold stripWS
  rw [show c :: l ++ [d] = c :: (l ++ [d]) from rfl]
  rw [List.dropWhile_cons, hc]
  simp only [Bool.false_eq_true, if_false]
  rw [show (c :: (l ++ [d])).reverse = d :: (l.reverse ++ [c]) by simp]
  rw [List.dropWhile_cons, hd]
  simp

/-- Removing one pair of surrounding quotes. -/
theorem stripQuotes_of_quote (q : Char) (inner : List Char)
    (hq : q = dquote ∨ q = squote) :
    stripQuotes (q :: inner ++ [q]) = inner := by
  have hstart : startsEndsWith (q :: inner ++ [q]) q = true := by
    have h1 : (q :: inner ++ [q]).head? = some q := rfl
    have h2 : (q :: inner ++ [q]).getLast? = some q := List.getLast?_concat _
    unfold startsEndsWith
    rw [h1, h2]
    simp
  have hcond : (startsEndsWith (q :: inner ++ [q]) dquote ||
      startsEndsWith (q :: inner ++ [q]) squote) = true := by
    rcases hq with h | h
    · subst h
      simp only [Bool.or_eq_true]
      exact Or.inl hstart
    · subst h
      simp only [Bool.or_eq_true]
      exact Or.inr hstart
  unfold stripQuotes
  rw [hcond]
  simp [List.dropLast_concat]

/-- C10: parse_key_value_pairs is total (it is a Lean function); an item with
no '=' is skipped, leaving the result unchanged; for a well-formed item one
pair of surrounding matching quotes is stripped from the value before type
inference (so quoted "true" or quoted "123" still convert to a boolean or an
integer), and likewise from the key. -/
theorem c10_parse_pairs_contract :
    (∀ pre bad post, '=' ∉ bad →
      parse_key_value_pairs (pre ++ bad :: post) = parse_key_value_pairs (pre ++ post)) ∧
    (∀ k inner q, (q = dquote ∨ q = squote) → '=' ∉ k →
      parse_key_value_pairs [k ++ '=' :: q :: (inner ++ [q])] =
        [(stripQuotes (stripWS k), inferValue inner)]) ∧
    parse_key_value_pairs [("a='true'".toList)] = [(("a".toList), PyVal.pybool true)] ∧
    parse_key_value_pairs [("b=\"123\"".toList)] = [(("b".toList), PyVal.pyint 123)] := by
  refine ⟨fun pre bad post hbad => ?_, fun k inner q hq hk => ?_, by decide, by decide⟩
  · have h : processItem bad = none := by
      unfold processItem
      rw [(splitFirstAt_eq_none '=' bad).mpr hbad]
    unfold parse_key_value_pairs
    rw [show pre ++ bad :: post = (pre ++ [bad]) ++ post by simp]
    rw [List.foldl_append, List.foldl_append, List.foldl_append]
    simp [h]
  · have hqws : isWS q = false := by
      rcases hq with h | h <;> subst h <;> decide
    have hsplit : splitFirstAt '=' (k ++ '=' :: (q :: (inner ++ [q]))) =
        some (k, q :: (inner ++ [q])) :=
      splitFirstAt_append '=' k _ hk
    unfold parse_key_value_pairs
    simp only [List.foldl_cons, List.foldl_nil]
    unfold processItem
    rw [hsplit]
    dsimp only
    rw [← List.cons_append]
    rw [stripWS_of_bounds q q inner hqws hqws]
    rw [stripQuotes_of_quote q inner hq]
    simp [dictSet]

/-- C10 witness: the contract applied at a malformed item and at a
single-quoted integer value. -/
theorem c10_parse_pairs_witness :
    parse_key_value_pairs [("nov".toList), ("x=1".toList)] =
      parse_key_value_pairs [("x=1".toList)] ∧
    parse_key_value_pairs [("k".toList ++ '=' :: squote :: (("5".toList) ++ [squote]))] =
      [(stripQuotes (stripWS ("k".toList)), inferValue ("5".toList))] := by
  constructor
  · exact c10_parse_pairs_contract.1 [] ("nov".toList) [("x=1".toList)] (by decide)
  · exact c10_parse_pairs_contract.2.1 ("k".toList) ("5".toList) squote (Or.inr rfl) (by decide)


/-- The random source of `random.randint` / `random.choice`, modelled as a
stream of draws plus a cursor. -/
structure RS where
  rng : ℕ → ℕ
  idx : ℕ

/-- Consume one draw from the random source. -/
def draw (st : RS) : ℕ × RS :=
  (st.rng st.idx, { st with idx := st.idx + 1 })

/-- Consume `k` draws from the random source. -/
def drawN : ℕ → RS → List ℕ × RS
| 0, st => ([], st)
| k + 1, st =>
  let (d, st1) := draw st
  let (ds, st2) := drawN k st1
  (d :: ds, st2)

/-- `random.randint(lo, hi)` on a draw: a value in `[lo, hi]` inclusive
(the functions below only call it with `lo ≤ hi`). -/
def randintD (lo hi d : ℕ) : ℕ := lo + d % (hi + 1 - lo)

/-- `random.choice(chars)` on a draw, for a nonempty character list. -/
def chooseD (chars : List Char) (d : ℕ) : Char :=
  chars.getD (d % chars.length) 'a'

/-- Python `str.replace(old, new)` for nonempty `old`: replace every
non-overlapping occurrence, scanning left to right and never rescanning
inserted text.  Fuel-indexed (fuel = length of the scanned string) so that
the kernel can evaluate it. -/
def replaceAllAux (new old : List Char) : ℕ → List Char → List Char
| 0, s => s
| fuel + 1, s =>
  match s with
  | [] => []
  | c :: rest =>
    if old.isPrefixOf (c :: rest) then
      new ++ replaceAllAux new old fuel ((c :: rest).drop old.length)
    else c :: replaceAllAux new old fuel rest

/-- `s.replace(old, new)` with nonempty `old` (every token this file replaces
is nonempty; Python's behaviour for empty `old` is not modelled). -/
def replaceAllOcc (s old new : List Char) : List Char :=
  if old.isEmpty then s else replaceAllAux new old s.length s

/-- `s.replace(old, new, 1)`: replace only the first occurrence. -/
def replaceFirstAux (new old : List Char) : ℕ → List Char → List Char
| 0, s => s
| fuel + 1, s =>
  match s with
  | [] => []
  | c :: rest =>
    if old.isPrefixOf (c :: rest) then new ++ (c :: rest).drop old.length
    else c :: replaceFirstAux new old fuel rest

/-- `s.replace(old, new, 1)` with nonempty `old`. -/
def replaceFirstOcc (s old new : List Char) : List Char :=
  if old.isEmpty then s else replaceFirstAux new old s.length s

/-- Digits of a natural number in a base, via a digit renderer; fuel-indexed
so the kernel can evaluate it (fuel = the number itself suffices). -/
def natToBaseAux (base : ℕ) (digit : ℕ → Char) : ℕ → ℕ → List Char → List Char
| 0, n, acc => digit n :: acc
| fuel + 1, n, acc =>
  if n < base then digit n :: acc
  else natToBaseAux base digit fuel (n / base) (digit (n % base) :: acc)

/-- Decimal rendering of a natural number (used for `str(int)` output). -/
def natToDec (n : ℕ) : List Char := natToBaseAux 10 Nat.digitChar n n []

/-- Lowercase hexadecimal rendering of a natural number. -/
def natToHexLower (n : ℕ) : List Char := natToBaseAux 16 Nat.digitChar n n []

/-- Uppercase hexadecimal digit. -/
def hexDigitUpper (n : ℕ) : Char :=
  if n < 10 then Nat.digitChar n else Char.ofNat (55 + n)

/-- Uppercase hexadecimal rendering of a natural number. -/
def natToHexUpper (n : ℕ) : List Char := natToBaseAux 16 hexDigitUpper n n []

/-- Zero-padding on the left to a given width (Python format "0Nx"). -/
def padZeroLeft (w : ℕ) (s : List Char) : List Char :=
  List.replicate (w - s.length) '0' ++ s

/-- Match of the regex `%n\[(\d+),(\d+)\]` anchored at the head of the
string: the two digit groups on success. -/
def matchNTokenAt (s : List Char) : Option (List Char × List Char) :=
  match s with
  | '%' :: 'n' :: '[' :: rest =>
    let ds1 := rest.takeWhile Char.isDigit
    match rest.dropWhile Char.isDigit with
    | ',' :: rest2 =>
      let ds2 := rest2.takeWhile Char.isDigit
      match rest2.dropWhile Char.isDigit with
      | ']' :: _ => if ds1.isEmpty || ds2.isEmpty then none else some (ds1, ds2)
      | _ => none
    | _ => none
  | _ => none

/-- `finditer` of `%n\[(\d+),(\d+)\]`: all non-overlapping matches, left
to right, as (matched text, min, max).  Fuel-indexed scan. -/
def scanNAux : ℕ → List Char → List (List Char × ℕ × ℕ)
| 0, _ => []
| fuel + 1, s =>
  match s with
  | [] => []
  | c :: rest =>
    match matchNTokenAt (c :: rest) with
    | some (ds1, ds2) =>
      let tok := '%' :: 'n' :: '[' :: ds1 ++ ',' :: ds2 ++ [']']
      (tok, digitsToNat ds1, digitsToNat ds2) ::
        scanNAux fuel ((c :: rest).drop tok.length)
    | none => scanNAux fuel rest

/-- All `%n[min,max]` matches of a template. -/
def scanNTokens (s : List Char) : List (List Char × ℕ × ℕ) := scanNAux s.length s

/-- Match of the regex `%t\[(\d+)\]` (for a tag character t) anchored at
the head of the string. -/
def matchTagAt (tag : Char) (s : List Char) : Option (List Char) :=
  match s with
  | '%' :: c :: '[' :: rest =>
    if c = tag then
      let ds := rest.takeWhile Char.isDigit
      match rest.dropWhile Char.isDigit with
      | ']' :: _ => if ds.isEmpty then none else some ds
      | _ => none
    else none
  | _ => none

/-- `finditer` of `%t\[(\d+)\]`: all non-overlapping matches as
(matched text, n). -/
def scanTagAux (tag : Char) : ℕ → List Char → List (List Char × ℕ)
| 0, _ => []
| fuel + 1, s =>
  match s with
  | [] => []
  | c :: rest =>
    match matchTagAt tag (c :: rest) with
    | some ds =>
      let tok := '%' :: tag :: '[' :: ds ++ [']']
      (tok, digitsToNat ds) :: scanTagAux tag fuel ((c :: rest).drop tok.length)
    | none => scanTagAux tag fuel rest

/-- All `%t[n]` matches of a template for the given tag character. -/
def scanTagTokens (tag : Char) (s : List Char) : List (List Char × ℕ) :=
  scanTagAux tag s.length s

/-- The alphabet `string.ascii_letters + string.digits` in Python's order. -/
def asciiLettersDigits : List Char :=
  ("abcdefghijklmnopqrstuvwxyzABCDEFGHIJKLMNOPQRSTUVWXYZ0123456789".toList)

/-- The lowercase hexadecimal alphabet used for `%g`. -/
def hexChars : List Char := ("0123456789abcdef".toList)

/-- Python's `old in s` substring test. -/
def containsTok : List Char → List Char → Bool
| [], tok => tok.isEmpty
| c :: rest, tok => tok.isPrefixOf (c :: rest) || containsTok rest tok

/-- The `%n[min,max]` pass: for each match of the original template, draw one
integer and replace every remaining occurrence of the matched token text
(`str.replace` with no count).  Fails when the range is empty, as
`random.randint` does. -/
def applyNTokens : List (List Char × ℕ × ℕ) → List Char → RS → Option (List Char) × RS
| [], r, st => (some r, st)
| (tok, lo, hi) :: rest, r, st =>
  let (d, st1) := draw st
  if lo ≤ hi then
    applyNTokens rest (replaceAllOcc r tok (natToDec (randintD lo hi d))) st1
  else (none, st1)

/-- The `%x[n]` / `%X[n]` pass: for each match of the original template, draw
an integer in `[0, 16^n - 1]`, render it zero-padded, and replace the first
remaining occurrence of the matched token text. -/
def applyHexTokens (upper : Bool) : List (List Char × ℕ) → List Char → RS → List Char × RS
| [], r, st => (r, st)
| (tok, n) :: rest, r, st =>
  let (d, st1) := draw st
  let v := randintD 0 (16 ^ n - 1) d
  let hex := padZeroLeft n (if upper then natToHexUpper v else natToHexLower v)
  applyHexTokens upper rest (replaceFirstOcc r tok hex) st1

/-- The `%r[n]` pass: for each match of the original template, draw `n`
characters from letters-plus-digits and replace the first remaining
occurrence of the matched token text. -/
def applyRTokens : List (List Char × ℕ) → List Char → RS → List Char × RS
| [], r, st => (r, st)
| (tok, n) :: rest, r, st =>
  let (ds, st1) := drawN n st
  applyRTokens rest (replaceFirstOcc r tok (ds.map (chooseD asciiLettersDigits))) st1

/-- A GUID-shaped value from 32 draws: 8-4-4-4-12 lowercase hex groups. -/
def guidFromDraws (ds : List ℕ) : List Char :=
  let cs := ds.map (chooseD hexChars)
  cs.take 8 ++ '-' :: ((cs.drop 8).take 4) ++ '-' :: ((cs.drop 12).take 4) ++
    '-' :: ((cs.drop 16).take 4) ++ '-' :: ((cs.drop 20).take 12)

/-- `ScenarioStep._format_replacement_variables`: expand the template tokens
in source order (%s, %n, %e, %x, %X, %r, %g).  The lorem sentence and the
current epoch second come from external collaborators (the lorem_text
library and the clock) and are passed in as parameters; the random draws are
threaded explicitly. -/
def formatReplacementVariables (template sentence : List Char) (epoch : ℕ) (st : RS) :
    Option (List Char) × RS :=
  let r1 := if containsTok template ['%', 's']
    then replaceAllOcc template ['%', 's'] sentence else template
  match applyNTokens (scanNTokens template) r1 st with
  | (none, st1) => (none, st1)
  | (some r2, st1) =>
    let r3 := if containsTok r2 ['%', 'e']
      then replaceAllOcc r2 ['%', 'e'] (natToDec epoch) else r2
    let (r4, st2) := applyHexTokens false (scanTagTokens 'x' template) r3 st1
    let (r5, st3) := applyHexTokens true (scanTagTokens 'X' template) r4 st2
    let (r6, st4) := applyRTokens (scanTagTokens 'r' template) r5 st3
    if containsTok r6 ['%', 'g'] then
      let (ds, st5) := drawN 32 st4
      (some (replaceAllOcc r6 ['%', 'g'] (guidFromDraws ds)), st5)
    else (some r6, st4)


/-- `replaceAllAux` is the identity when the token does not occur. -/
theorem replaceAllAux_no_occ (new old : List Char) :
    ∀ fuel s, containsTok s old = false → replaceAllAux new old fuel s = s := by
  intro fuel
  induction fuel with
  | zero => intro s _; rfl
  | succ f ih =>
    intro s h
    cases s with
    | nil => rfl
    | cons c rest =>
      unfold containsTok at h
      rw [Bool.or_eq_false_iff] at h
      unfold replaceAllAux
      dsimp only
      rw [h.1]
      simp only [Bool.false_eq_true, if_false]
      rw [ih rest h.2]

/-- `str.replace(old, new)` is the identity when `old` does not occur. -/
theorem replaceAllOcc_no_occ (s old new : List Char) (h : containsTok s old = false) :
    replaceAllOcc s old new = s := by
  unfold replaceAllOcc
  by_cases he : old.isEmpty
  · rw [if_pos he]
  · rw [if_neg he]
    exact replaceAllAux_no_occ new old s.length s h

/-- `replaceFirstAux` is the identity when the token does not occur. -/
theorem replaceFirstAux_no_occ (new old : List Char) :
    ∀ fuel s, containsTok s old = false → replaceFirstAux new old fuel s = s := by
  intro fuel
  induction fuel with
  | zero => intro s _; rfl
  | succ f ih =>
    intro s h
    cases s with
    | nil => rfl
    | cons c rest =>
      unfold containsTok at h
      rw [Bool.or_eq_false_iff] at h
      unfold replaceFirstAux
      dsimp only
      rw [h.1]
      simp only [Bool.false_eq_true, if_false]
      rw [ih rest h.2]

/-- `str.replace(old, new, 1)` is the identity when `old` does not occur. -/
theorem replaceFirstOcc_no_occ (s old new : List Char) (h : containsTok s old = false) :
    replaceFirstOcc s old new = s := by
  unfold replaceFirstOcc
  by_cases he : old.isEmpty
  · rw [if_pos he]
  · rw [if_neg he]
    exact replaceFirstAux_no_occ new old s.length s h

/-- After the first `%n[0,9]` replacement of the duplicate-token template the
intermediate string contains no further token text. -/
theorem nn_intermediate_clean (d : ℕ) :
    containsTok (natToDec (randintD 0 9 d) ++ 'x' :: (natToDec (randintD 0 9 d) ++ []))
      ("%n[0,9]".toList) = false ∧
    containsTok (natToDec (randintD 0 9 d) ++ 'x' :: (natToDec (randintD 0 9 d) ++ []))
      ['%', 'e'] = false ∧
    containsTok (natToDec (randintD 0 9 d) ++ 'x' :: (natToDec (randintD 0 9 d) ++ []))
      ['%', 'g'] = false := by
  have h : randintD 0 9 d < 10 := by
    unfold randintD
    omega
  revert h
  generalize randintD 0 9 d = k
  intro h
  interval_cases k <;> exact ⟨rfl, rfl, rfl⟩

/-- After the first `%x[1]` replacement of the duplicate-token template the
intermediate string still contains the second token occurrence but not at a
position overlapping the inserted hex digit. -/
theorem xx_intermediate (d : ℕ) (new : List Char) :
    replaceFirstOcc
      (padZeroLeft 1 (natToHexLower (randintD 0 15 d)) ++ 'y' :: ("%x[1]".toList))
      ("%x[1]".toList) new =
      padZeroLeft 1 (natToHexLower (randintD 0 15 d)) ++ 'y' :: (new ++ []) := by
  have h : randintD 0 15 d < 16 := by
    unfold randintD
    omega
  revert h
  generalize randintD 0 15 d = k
  intro h
  interval_cases k <;> rfl


/-- A token starting with a character that does not occur in the string never
occurs in the string. -/
theorem containsTok_head_not_mem (c : Char) (t : List Char) :
    ∀ s : List Char, c ∉ s → containsTok s (c :: t) = false := by
  intro s
  induction s with
  | nil => intro _; rfl
  | cons a rest ih =>
    intro h
    have hca : ¬ c = a := fun hh => h (hh ▸ List.mem_cons_self a rest)
    have hcr : c ∉ rest := fun hh => h (List.mem_cons_of_mem a hh)
    unfold containsTok
    rw [ih hcr]
    simp [List.isPrefixOf, hca, fun hh : a = c => hca hh.symm]

/-- A freshly rendered single hex digit contains no percent sign. -/
theorem pct_not_mem_hex1 (d : ℕ) :
    '%' ∉ padZeroLeft 1 (natToHexLower (randintD 0 15 d)) := by
  have h : randintD 0 15 d < 16 := by
    unfold randintD
    omega
  revert h
  generalize randintD 0 15 d = k
  intro h
  interval_cases k <;> decide

/-- A freshly rendered decimal digit in [0,9] contains no percent sign. -/
theorem pct_not_mem_dec9 (d : ℕ) : '%' ∉ natToDec (randintD 0 9 d) := by
  have h : randintD 0 9 d < 10 := by
    unfold randintD
    omega
  revert h
  generalize randintD 0 9 d = k
  intro h
  interval_cases k <;> decide

/-- A freshly rendered decimal digit in [1,8] contains no percent sign. -/
theorem pct_not_mem_dec18 (d : ℕ) : '%' ∉ natToDec (randintD 1 8 d) := by
  have h1 : 1 ≤ randintD 1 8 d := by
    unfold randintD
    omega
  have h2 : randintD 1 8 d < 9 := by
    unfold randintD
    omega
  revert h1 h2
  generalize randintD 1 8 d = k
  intro h1 h2
  interval_cases k <;> decide

/-- In the distinct-token template, the second token's replacement finds its
single occurrence after the first replacement and substitutes it. -/
theorem nn2_second_replace (d : ℕ) (new : List Char) :
    replaceAllOcc (natToDec (randintD 0 9 d) ++ 'y' :: ("%n[1,8]".toList))
      ("%n[1,8]".toList) new =
      natToDec (randintD 0 9 d) ++ 'y' :: (new ++ []) := by
  have h : randintD 0 9 d < 10 := by
    unfold randintD
    omega
  revert h
  generalize randintD 0 9 d = k
  intro h
  interval_cases k <;> rfl

/-- After the first `%X[1]` replacement, the second token occurrence is
still present and is replaced without touching the inserted hex digit. -/
theorem upperhex_intermediate (d : ℕ) (new : List Char) :
    replaceFirstOcc
      (padZeroLeft 1 (natToHexUpper (randintD 0 15 d)) ++ 'y' :: ("%X[1]".toList))
      ("%X[1]".toList) new =
      padZeroLeft 1 (natToHexUpper (randintD 0 15 d)) ++ 'y' :: (new ++ []) := by
  have h : randintD 0 15 d < 16 := by
    unfold randintD
    omega
  revert h
  generalize randintD 0 15 d = k
  intro h
  interval_cases k <;> rfl

/-- A freshly rendered single uppercase hex digit contains no percent
sign. -/
theorem pct_not_mem_hexUpper1 (d : ℕ) :
    '%' ∉ padZeroLeft 1 (natToHexUpper (randintD 0 15 d)) := by
  have h : randintD 0 15 d < 16 := by
    unfold randintD
    omega
  revert h
  generalize randintD 0 15 d = k
  intro h
  interval_cases k <;> decide

/-- After the first `%r[1]` replacement, the second token occurrence is
still present and is replaced without touching the inserted character. -/
theorem alnum_intermediate (d : ℕ) (new : List Char) :
    replaceFirstOcc
      (chooseD asciiLettersDigits d :: 'y' :: ("%r[1]".toList))
      ("%r[1]".toList) new =
      chooseD asciiLettersDigits d :: 'y' :: (new ++ []) := by
  have h : d % 62 < 62 := Nat.mod_lt _ (by norm_num)
  have hc : chooseD asciiLettersDigits d = asciiLettersDigits.getD (d % 62) 'a' := rfl
  rw [hc]
  revert h
  generalize d % 62 = k
  intro h
  interval_cases k <;> rfl

/-- A freshly chosen letter-or-digit contains no percent sign. -/
theorem pct_not_mem_alnum1 (d : ℕ) : '%' ∉ [chooseD asciiLettersDigits d] := by
  have h : d % 62 < 62 := Nat.mod_lt _ (by norm_num)
  have hc : chooseD asciiLettersDigits d = asciiLettersDigits.getD (d % 62) 'a' := rfl
  rw [hc]
  revert h
  generalize d % 62 = k
  intro h
  interval_cases k <;> decide

/-- C3 (counterexample): in the template "%g %g" both occurrences of `%g`
receive the same GUID — the one generated from the first 32 draws — even
though the stream holds further draws that would render a different GUID
(`str.replace` substitutes one generated value for every occurrence).
Likewise in "%n[0,9]x%n[0,9]" both occurrences of the duplicate `%n` token
text receive the value of the first draw (0), although the second `finditer`
match consumes a draw (1) whose rendering differs.  This refutes the claim
that every matched `%n`/`%g` occurrence is independently randomized. -/
theorem c3_template_counterexample :
    (formatReplacementVariables ("%g %g".toList) [] 0 ⟨fun k => k / 32, 0⟩).1 =
      some (guidFromDraws ((drawN 32 (⟨fun k => k / 32, 0⟩ : RS)).1) ++ ' ' ::
        guidFromDraws ((drawN 32 (⟨fun k => k / 32, 0⟩ : RS)).1)) ∧
    guidFromDraws ((drawN 32 ((drawN 32 (⟨fun k => k / 32, 0⟩ : RS)).2)).1) ≠
      guidFromDraws ((drawN 32 (⟨fun k => k / 32, 0⟩ : RS)).1) ∧
    (formatReplacementVariables ("%n[0,9]x%n[0,9]".toList) [] 0 ⟨fun k => k, 0⟩).1 =
      some ("0x0".toList) ∧
    natToDec (randintD 0 9 1) ≠ ("0".toList) := by
  refine ⟨by decide, by decide, by decide, by decide⟩

/-- C3 (amended): within one template evaluation, `%s` and `%e` are computed
once and reused; likewise `%g` receives one shared generated GUID that
replaces every `%g` occurrence, and duplicate occurrences of identical
`%n[min,max]` token text all receive the single integer drawn for that
text's first `finditer` match — substitution is `str.replace` over every
occurrence.  By contrast, `%n` tokens with distinct token text consume
successive independent draws, and each occurrence of the bracketed tokens
`%x[n]`, `%X[n]`, `%r[n]` consumes its own draws.  Each behaviour is proved
universally over the random source on a representative duplicate-token or
distinct-token template. -/
theorem c3_template_amended :
    (∀ (sentence : List Char) (epoch : ℕ) (st : RS),
      formatReplacementVariables ("%g %g".toList) sentence epoch st =
        (some (guidFromDraws ((drawN 32 st).1) ++ ' ' :: (guidFromDraws ((drawN 32 st).1) ++ [])),
          (drawN 32 st).2)) ∧
    (∀ (sentence : List Char) (epoch : ℕ) (st : RS),
      formatReplacementVariables ("%n[0,9]x%n[0,9]".toList) sentence epoch st =
        (some (natToDec (randintD 0 9 (st.rng st.idx)) ++ 'x' ::
          (natToDec (randintD 0 9 (st.rng st.idx)) ++ [])),
          { st with idx := st.idx + 2 })) ∧
    (∀ (sentence : List Char) (epoch : ℕ) (st : RS),
      formatReplacementVariables ("%n[0,9]y%n[1,8]".toList) sentence epoch st =
        (some (natToDec (randintD 0 9 (st.rng st.idx)) ++ 'y' ::
          (natToDec (randintD 1 8 (st.rng (st.idx + 1))) ++ [])),
          { st with idx := st.idx + 2 })) ∧
    (∀ (sentence : List Char) (epoch : ℕ) (st : RS),
      formatReplacementVariables ("%x[1]y%x[1]".toList) sentence epoch st =
        (some (padZeroLeft 1 (natToHexLower (randintD 0 15 (st.rng st.idx))) ++ 'y' ::
          (padZeroLeft 1 (natToHexLower (randintD 0 15 (st.rng (st.idx + 1)))) ++ [])),
          { st with idx := st.idx + 2 })) ∧
    (∀ (sentence : List Char) (epoch : ℕ) (st : RS),
      formatReplacementVariables ("%X[1]y%X[1]".toList) sentence epoch st =
        (some (padZeroLeft 1 (natToHexUpper (randintD 0 15 (st.rng st.idx))) ++ 'y' ::
          (padZeroLeft 1 (natToHexUpper (randintD 0 15 (st.rng (st.idx + 1)))) ++ [])),
          { st with idx := st.idx + 2 })) ∧
    (∀ (sentence : List Char) (epoch : ℕ) (st : RS),
      formatReplacementVariables ("%r[1]y%r[1]".toList) sentence epoch st =
        (some (chooseD asciiLettersDigits (st.rng st.idx) :: 'y' ::
          ([chooseD asciiLettersDigits (st.rng (st.idx + 1))] ++ [])),
          { st with idx := st.idx + 2 })) := by
  refine ⟨fun sentence epoch st => ?_, fun sentence epoch st => ?_,
    fun sentence epoch st => ?_, fun sentence epoch st => ?_,
    fun sentence epoch st => ?_, fun sentence epoch st => ?_⟩
  · unfold formatReplacementVariables
    rw [show containsTok ("%g %g".toList) ['%', 's'] = false from rfl]
    simp only [Bool.false_eq_true, if_false]
    rw [show scanNTokens ("%g %g".toList) = [] from rfl]
    rw [show scanTagTokens 'x' ("%g %g".toList) = [] from rfl]
    rw [show scanTagTokens 'X' ("%g %g".toList) = [] from rfl]
    rw [show scanTagTokens 'r' ("%g %g".toList) = [] from rfl]
    simp only [applyNTokens, applyHexTokens, applyRTokens]
    rw [show containsTok ("%g %g".toList) ['%', 'e'] = false from rfl]
    simp only [Bool.false_eq_true, if_false]
    rw [show containsTok ("%g %g".toList) ['%', 'g'] = true from rfl]
    simp only [if_true]
    rw [show ∀ new, replaceAllOcc ("%g %g".toList) ['%', 'g'] new = new ++ ' ' :: (new ++ [])
      from fun _ => rfl]
  · unfold formatReplacementVariables
    rw [show containsTok ("%n[0,9]x%n[0,9]".toList) ['%', 's'] = false from rfl]
    simp only [Bool.false_eq_true, if_false]
    rw [show scanNTokens ("%n[0,9]x%n[0,9]".toList) =
      [(("%n[0,9]".toList), 0, 9), (("%n[0,9]".toList), 0, 9)] from rfl]
    rw [show scanTagTokens 'x' ("%n[0,9]x%n[0,9]".toList) = [] from rfl]
    rw [show scanTagTokens 'X' ("%n[0,9]x%n[0,9]".toList) = [] from rfl]
    rw [show scanTagTokens 'r' ("%n[0,9]x%n[0,9]".toList) = [] from rfl]
    simp only [applyNTokens, applyHexTokens, applyRTokens, draw]
    rw [if_pos (by norm_num : (0:ℕ) ≤ 9), if_pos (by norm_num : (0:ℕ) ≤ 9)]
    rw [show ∀ new, replaceAllOcc ("%n[0,9]x%n[0,9]".toList) ("%n[0,9]".toList) new =
      new ++ 'x' :: (new ++ []) from fun _ => rfl]
    rw [replaceAllOcc_no_occ _ _ _ (nn_intermediate_clean (st.rng st.idx)).1]
    dsimp only
    rw [(nn_intermediate_clean (st.rng st.idx)).2.1]
    simp only [Bool.false_eq_true, if_false]
    rw [(nn_intermediate_clean (st.rng st.idx)).2.2]
    simp only [Bool.false_eq_true, if_false]
  · unfold formatReplacementVariables
    rw [show containsTok ("%n[0,9]y%n[1,8]".toList) ['%', 's'] = false from rfl]
    simp only [Bool.false_eq_true, if_false]
    rw [show scanNTokens ("%n[0,9]y%n[1,8]".toList) =
      [(("%n[0,9]".toList), 0, 9), (("%n[1,8]".toList), 1, 8)] from rfl]
    rw [show scanTagTokens 'x' ("%n[0,9]y%n[1,8]".toList) = [] from rfl]
    rw [show scanTagTokens 'X' ("%n[0,9]y%n[1,8]".toList) = [] from rfl]
    rw [show scanTagTokens 'r' ("%n[0,9]y%n[1,8]".toList) = [] from rfl]
    simp only [applyNTokens, applyHexTokens, applyRTokens, draw]
    rw [if_pos (by norm_num : (0:ℕ) ≤ 9), if_pos (by norm_num : (1:ℕ) ≤ 8)]
    rw [show ∀ new, replaceAllOcc ("%n[0,9]y%n[1,8]".toList) ("%n[0,9]".toList) new =
      new ++ 'y' :: ("%n[1,8]".toList) from fun _ => rfl]
    rw [nn2_second_replace (st.rng st.idx)]
    dsimp only
    rw [containsTok_head_not_mem '%' ['e'] _ ?hm1]
    case hm1 =>
      intro hmem
      rcases List.mem_append.mp hmem with h1 | h2
      · exact pct_not_mem_dec9 _ h1
      · rcases List.mem_cons.mp h2 with h3 | h4
        · cases h3
        · rcases List.mem_append.mp h4 with h5 | h6
          · exact pct_not_mem_dec18 _ h5
          · cases h6
    simp only [Bool.false_eq_true, if_false]
    rw [containsTok_head_not_mem '%' ['g'] _ ?hm2]
    case hm2 =>
      intro hmem
      rcases List.mem_append.mp hmem with h1 | h2
      · exact pct_not_mem_dec9 _ h1
      · rcases List.mem_cons.mp h2 with h3 | h4
        · cases h3
        · rcases List.mem_append.mp h4 with h5 | h6
          · exact pct_not_mem_dec18 _ h5
          · cases h6
    simp only [Bool.false_eq_true, if_false]
  · unfold formatReplacementVariables
    rw [show containsTok ("%x[1]y%x[1]".toList) ['%', 's'] = false from rfl]
    simp only [Bool.false_eq_true, if_false]
    rw [show scanNTokens ("%x[1]y%x[1]".toList) = [] from rfl]
    simp only [applyNTokens]
    rw [show containsTok ("%x[1]y%x[1]".toList) ['%', 'e'] = false from rfl]
    simp only [Bool.false_eq_true, if_false]
    rw [show scanTagTokens 'x' ("%x[1]y%x[1]".toList) =
      [(("%x[1]".toList), 1), (("%x[1]".toList), 1)] from rfl]
    rw [show scanTagTokens 'X' ("%x[1]y%x[1]".toList) = [] from rfl]
    rw [show scanTagTokens 'r' ("%x[1]y%x[1]".toList) = [] from rfl]
    simp only [applyHexTokens, applyRTokens, draw]
    simp only [Bool.false_eq_true, if_false, show (16:ℕ) ^ 1 - 1 = 15 from by norm_num]
    rw [show ∀ new, replaceFirstOcc ("%x[1]y%x[1]".toList) ("%x[1]".toList) new =
      new ++ 'y' :: ("%x[1]".toList) from fun _ => rfl]
    rw [xx_intermediate (st.rng st.idx)]
    rw [containsTok_head_not_mem '%' ['g'] _ ?hmem]
    case hmem =>
      intro hmem
      rcases List.mem_append.mp hmem with h1 | h2
      · exact pct_not_mem_hex1 _ h1
      · rcases List.mem_cons.mp h2 with h3 | h4
        · cases h3
        · rcases List.mem_append.mp h4 with h5 | h6
          · exact pct_not_mem_hex1 _ h5
          · cases h6
    simp only [Bool.false_eq_true, if_false]
  · unfold formatReplacementVariables
    rw [show containsTok ("%X[1]y%X[1]".toList) ['%', 's'] = false from rfl]
    simp only [Bool.false_eq_true, if_false]
    rw [show scanNTokens ("%X[1]y%X[1]".toList) = [] from rfl]
    simp only [applyNTokens]
    rw [show containsTok ("%X[1]y%X[1]".toList) ['%', 'e'] = false from rfl]
    simp only [Bool.false_eq_true, if_false]
    rw [show scanTagTokens 'x' ("%X[1]y%X[1]".toList) = [] from rfl]
    rw [show scanTagTokens 'X' ("%X[1]y%X[1]".toList) =
      [(("%X[1]".toList), 1), (("%X[1]".toList), 1)] from rfl]
    rw [show scanTagTokens 'r' ("%X[1]y%X[1]".toList) = [] from rfl]
    simp only [applyHexTokens, applyRTokens, draw]
    simp only [if_true, show (16:ℕ) ^ 1 - 1 = 15 from by norm_num]
    rw [show ∀ new, replaceFirstOcc ("%X[1]y%X[1]".toList) ("%X[1]".toList) new =
      new ++ 'y' :: ("%X[1]".toList) from fun _ => rfl]
    rw [upperhex_intermediate (st.rng st.idx)]
    rw [containsTok_head_not_mem '%' ['g'] _ ?hmem]
    case hmem =>
      intro hmem
      rcases List.mem_append.mp hmem with h1 | h2
      · exact pct_not_mem_hexUpper1 _ h1
      · rcases List.mem_cons.mp h2 with h3 | h4
        · cases h3
        · rcases List.mem_append.mp h4 with h5 | h6
          · exact pct_not_mem_hexUpper1 _ h5
          · cases h6
    simp only [Bool.false_eq_true, if_false]
  · unfold formatReplacementVariables
    rw [show containsTok ("%r[1]y%r[1]".toList) ['%', 's'] = false from rfl]
    simp only [Bool.false_eq_true, if_false]
    rw [show scanNTokens ("%r[1]y%r[1]".toList) = [] from rfl]
    simp only [applyNTokens]
    rw [show containsTok ("%r[1]y%r[1]".toList) ['%', 'e'] = false from rfl]
    simp only [Bool.false_eq_true, if_false]
    rw [show scanTagTokens 'x' ("%r[1]y%r[1]".toList) = [] from rfl]
    rw [show scanTagTokens 'X' ("%r[1]y%r[1]".toList) = [] from rfl]
    rw [show scanTagTokens 'r' ("%r[1]y%r[1]".toList) =
      [(("%r[1]".toList), 1), (("%r[1]".toList), 1)] from rfl]
    simp only [applyHexTokens, applyRTokens, drawN, draw]
    simp only [List.map_cons, List.map_nil]
    rw [show ∀ c, replaceFirstOcc ("%r[1]y%r[1]".toList) ("%r[1]".toList) [c] =
      c :: 'y' :: ("%r[1]".toList) from fun _ => rfl]
    rw [alnum_intermediate (st.rng st.idx)]
    rw [containsTok_head_not_mem '%' ['g'] _ ?hmem]
    case hmem =>
      intro hmem
      rcases List.mem_cons.mp hmem with h1 | h2
      · refine pct_not_mem_alnum1 (st.rng st.idx) ?_
        rw [← h1]
        exact List.mem_singleton_self _
      · rcases List.mem_cons.mp h2 with h3 | h4
        · cases h3
        · rcases List.mem_append.mp h4 with h5 | h6
          · exact pct_not_mem_alnum1 _ h5
          · cases h6
    simp only [Bool.false_eq_true, if_false]


/-- The regex fragment exercised by the scenario rewrite rules modelled here:
a nonempty literal string, optionally wrapped in one capturing group.
`re.compile` of such a pattern succeeds; a pattern outside the fragment
(unbalanced parenthesis, other metacharacters) is rejected. -/
inductive PatNode
| lit (cs : List Char)
| grp (cs : List Char)
deriving DecidableEq

/-- The literal text a pattern matches. -/
def patText : PatNode → List Char
| PatNode.lit cs => cs
| PatNode.grp cs => cs

/-- Group 1 of a match of the pattern, when the pattern has a group. -/
def patGroup1 : PatNode → Option (List Char)
| PatNode.lit _ => none
| PatNode.grp cs => some cs

/-- Regex metacharacters (a character is "plain" when it is none of them). -/
def isRegexSpecial (c : Char) : Bool :=
  c = '.' || c = '^' || c = '$' || c = '*' || c = '+' || c = '?' || c = '[' || c = ']' ||
    c = '\\' || c = '|' || c = '(' || c = ')' || c = Char.ofNat 123 || c = Char.ofNat 125

/-- Model of `re.compile` restricted to the fragment above: a nonempty string
of plain characters, or such a string wrapped in one pair of parentheses.
Everything else is rejected (conservatively; the real engine accepts more
patterns, none of which the claims exercise). -/
def compileMini (p : List Char) : Option PatNode :=
  match p with
  | '(' :: rest =>
    match rest.reverse with
    | ')' :: innerRev =>
      let inner := innerRev.reverse
      if !inner.isEmpty && inner.all (fun c => !isRegexSpecial c) then
        some (PatNode.grp inner)
      else none
    | _ => none
  | _ =>
    if !p.isEmpty && p.all (fun c => !isRegexSpecial c) then some (PatNode.lit p)
    else none

/-- Expansion of a `re.sub` replacement template against a match: `\\`
yields a backslash, `\1` the text of group 1 (an error when the pattern has
no group), `\n`/`\t`/`\r` the usual control characters, any other
backslash-letter or backslash-digit sequence is an error (bad escape /
invalid group reference), a backslash before any other character is kept
as-is, and a trailing backslash is an error — Python's template rules for
the constructs modelled here. -/
def expandTemplate (g1 : Option (List Char)) : List Char → Option (List Char)
| [] => some []
| ['\\'] => none
| '\\' :: c :: rest =>
  if c = '\\' then (expandTemplate g1 rest).map (fun t => '\\' :: t)
  else if c = '1' then
    match g1 with
    | some g => (expandTemplate g1 rest).map (fun t => g ++ t)
    | none => none
  else if c = 'n' then (expandTemplate g1 rest).map (fun t => '\n' :: t)
  else if c = 't' then (expandTemplate g1 rest).map (fun t => '\t' :: t)
  else if c = 'r' then (expandTemplate g1 rest).map (fun t => '\r' :: t)
  else if c.isAlpha || c.isDigit then none
  else (expandTemplate g1 rest).map (fun t => '\\' :: c :: t)
| c :: rest => (expandTemplate g1 rest).map (fun t => c :: t)

/-- `pattern.sub(repl, s)` for a pattern of the modelled fragment: the
replacement template is expanded against the (constant) match groups, and
the expansion replaces every non-overlapping match of the pattern's literal
text, left to right.  `none` models the `re.error` a malformed template
raises (even when the pattern never matches, as in Python). -/
def pysubst (p : PatNode) (repl s : List Char) : Option (List Char) :=
  match expandTemplate (patGroup1 p) repl with
  | none => none
  | some e => some (replaceAllOcc s (patText p) e)

/-- A compiled rewrite rule: compiled pattern plus raw replacement template
(`ScenarioStep.compiled_replacements` entries). -/
structure CompiledRule where
  pattern : PatNode
  template : List Char
deriving DecidableEq

/-- `ScenarioStep.apply_replacements`: for each rule in order, expand the
formatting variables of the replacement template (consuming random draws)
and substitute every match of the rule's pattern in the current line.
`none` models an exception escaping (empty randint range or malformed
template). -/
def applyReplacements : List CompiledRule → List Char → List Char → ℕ → RS →
    Option (List Char) × RS
| [], line, _, _, st => (some line, st)
| rule :: rest, line, sentence, epoch, st =>
  match formatReplacementVariables rule.template sentence epoch st with
  | (none, st1) => (none, st1)
  | (some f, st1) =>
    match pysubst rule.pattern f line with
    | none => (none, st1)
    | some l2 => applyReplacements rest l2 sentence epoch st1

/-- A backslash-free replacement template expands to itself. -/
theorem expandTemplate_no_backslash (g1 : Option (List Char)) :
    ∀ e : List Char, (∀ c ∈ e, c ≠ '\\') → expandTemplate g1 e = some e := by
  intro e
  induction e with
  | nil => intro _; rfl
  | cons c rest ih =>
    intro h
    have hc : c ≠ '\\' := h c (List.mem_cons_self c rest)
    have hrest : ∀ x ∈ rest, x ≠ '\\' := fun x hm => h x (List.mem_cons_of_mem _ hm)
    cases rest with
    | nil => simp [expandTemplate, hc]
    | cons d rest2 =>
      rw [show expandTemplate g1 (c :: d :: rest2) =
        (expandTemplate g1 (d :: rest2)).map (fun t => c :: t) from by
          simp [expandTemplate, hc]]
      rw [ih hrest]
      rfl

/-- C4 (counterexample): the rewrite rule with pattern "(a)" and replacement
template backslash-1-x applied to the line "a" yields "ax" — the template is
interpreted by the regex engine (the group reference expands to the matched
text) — whereas the claim's verbatim insertion would yield the three-character
string backslash-1-x. -/
theorem c4_transform_counterexample :
    compileMini ("(a)".toList) = some (PatNode.grp ['a']) ∧
    (applyReplacements [⟨PatNode.grp ['a'], ['\\', '1', 'x']⟩] ['a'] [] 0 ⟨fun _ => 0, 0⟩).1 =
      some ['a', 'x'] ∧
    (['a', 'x'] : List Char) ≠ ['\\', '1', 'x'] :=
  ⟨by decide, by decide, by decide⟩

/-- C4 (amended): for each rewrite rule, the template-expanded replacement is
computed once per rule application and the same expansion is handed to the
regex substitution for every non-overlapping match in that pass; the
expansion is interpreted as a regex replacement template (backslash escapes
and group references are processed), not inserted verbatim — but whenever
the expanded replacement contains no backslash it is substituted literally,
the same text at every match. -/
theorem c4_transform_amended :
    (∀ (p : PatNode) (e line : List Char), (∀ c ∈ e, c ≠ '\\') →
      pysubst p e line = some (replaceAllOcc line (patText p) e)) ∧
    (∀ (rule : CompiledRule) (line sentence : List Char) (epoch : ℕ) (st : RS) (f : List Char),
      (formatReplacementVariables rule.template sentence epoch st).1 = some f →
      (applyReplacements [rule] line sentence epoch st).1 = pysubst rule.pattern f line) := by
  constructor
  · intro p e line h
    unfold pysubst
    rw [expandTemplate_no_backslash (patGroup1 p) e h]
  · intro rule line sentence epoch st f hf
    rcases hfr : formatReplacementVariables rule.template sentence epoch st with ⟨fr, st1⟩
    rw [hfr] at hf
    simp only at hf
    subst hf
    unfold applyReplacements
    rw [hfr]
    dsimp only
    cases hps : pysubst rule.pattern f line with
    | none => rfl
    | some l2 => rfl

/-- C4 witness: the amended statement applied to the backslash-free
replacement "z" for pattern "a" on the line "aba", and to a one-rule pass. -/
theorem c4_transform_amended_witness :
    pysubst (PatNode.lit ['a']) ['z'] ['a', 'b', 'a'] =
      some (replaceAllOcc ['a', 'b', 'a'] (patText (PatNode.lit ['a'])) ['z']) ∧
    (applyReplacements [⟨PatNode.lit ['a'], ['z']⟩] ['a'] [] 0 ⟨fun _ => 0, 0⟩).1 =
      pysubst (PatNode.lit ['a']) ['z'] ['a'] := by
  constructor
  · exact c4_transform_amended.1 (PatNode.lit ['a']) ['z'] ['a', 'b', 'a'] (by decide)
  · exact c4_transform_amended.2 ⟨PatNode.lit ['a'], ['z']⟩ ['a'] [] 0 ⟨fun _ => 0, 0⟩ ['z']
      (by decide)

/-- Decoded YAML values (the result of `yaml.safe_load`). -/
inductive Yaml
| ynull
| ybool (b : Bool)
| yint (n : ℤ)
| yfloat (q : ℚ)
| ystr (s : List Char)
| ylist (xs : List Yaml)
| ymap (kvs : List (List Char × Yaml))

/-- Lookup in a YAML mapping (`dict.get` / `in`). -/
def yget (kvs : List (List Char × Yaml)) (k : List Char) : Option Yaml :=
  (kvs.find? (fun kv => kv.1 = k)).map (fun kv => kv.2)

/-- Errors raised while constructing one `ScenarioStep`. -/
inductive StepErr
| durationErr (s : List Char)
| filterPatternErr (p : List Char)
| replacementFormatErr
| replacementPatternErr (p : List Char)
| typeErr
deriving DecidableEq

/-- `_parse_duration` applied to a raw YAML field value (with the field's
default when absent).  A Python `bool` is an `int`, so booleans take the
numeric path; `str()` of a structured value never matches the duration
regex, so those fail (modelled as a duration error on the empty rendering). -/
def durationOfYaml (v : Option Yaml) (dflt : List Char) : Except StepErr ℚ :=
  match v.getD (Yaml.ystr dflt) with
  | Yaml.yint n => Except.ok n
  | Yaml.yfloat q => Except.ok q
  | Yaml.ybool b => Except.ok (if b then 1 else 0)
  | Yaml.ystr s =>
    match parseDurationStr s with
    | Except.ok q => Except.ok q
    | Except.error t => Except.error (StepErr.durationErr t)
  | _ => Except.error (StepErr.durationErr [])

/-- The iteration count of a step: absent means 1; a Python bool is an int.
(For any other type the source stores the raw value and only fails later, at
`range(...)` inside the worker; such a scenario cannot execute an iteration,
and the model rejects it at construction.) -/
def iterationsOfYaml (v : Option Yaml) : Except StepErr ℤ :=
  match v with
  | none => Except.ok 1
  | some (Yaml.yint n) => Except.ok n
  | some (Yaml.ybool b) => Except.ok (if b then 1 else 0)
  | some _ => Except.error StepErr.typeErr

/-- Compile the step's filter patterns.  A missing or falsy field yields no
filters; a list compiles each entry (a non-string entry is a TypeError); a
string field is iterated character by character, as Python does. -/
def compileFilterList : List Yaml → Except StepErr (List PatNode)
| [] => Except.ok []
| Yaml.ystr p :: rest =>
  match compileMini p with
  | some pat => (compileFilterList rest).map (fun ps => pat :: ps)
  | none => Except.error (StepErr.filterPatternErr p)
| _ :: _ => Except.error StepErr.typeErr

/-- The `filters` field of a step: falsy values (absent, None, empty list,
empty string, zero, empty mapping) yield no filters; a truthy list compiles
each entry; Python iterates a truthy string character by character and a
truthy mapping over its keys; iterating a number or a bool is a TypeError. -/
def filtersOfYaml (v : Option Yaml) : Except StepErr (List PatNode) :=
  match v with
  | none => Except.ok []
  | some (Yaml.ylist xs) => if xs.isEmpty then Except.ok [] else compileFilterList xs
  | some (Yaml.ystr s) =>
    if s.isEmpty then Except.ok []
    else compileFilterList (s.map (fun c => Yaml.ystr [c]))
  | some Yaml.ynull => Except.ok []
  | some (Yaml.ybool b) => if b then Except.error StepErr.typeErr else Except.ok []
  | some (Yaml.yint n) => if n = 0 then Except.ok [] else Except.error StepErr.typeErr
  | some (Yaml.yfloat q) => if q = 0 then Except.ok [] else Except.error StepErr.typeErr
  | some (Yaml.ymap kvs) =>
    if kvs.isEmpty then Except.ok []
    else compileFilterList (kvs.map (fun kv => Yaml.ystr kv.1))

/-- Validate and compile the step's rewrite rules: each entry must be a
mapping with `pattern` and `replacement` keys, and the pattern must compile.
(A non-string replacement is stored by the source and only fails later,
during template expansion; the model rejects it at construction.) -/
def validateReplacementList : List Yaml → Except StepErr (List (PatNode × List Char))
| [] => Except.ok []
| Yaml.ymap m :: rest =>
  match yget m ("pattern".toList), yget m ("replacement".toList) with
  | some (Yaml.ystr p), some r =>
    match compileMini p with
    | some pat =>
      match r with
      | Yaml.ystr rs => (validateReplacementList rest).map (fun ps => (pat, rs) :: ps)
      | _ => Except.error StepErr.typeErr
    | none => Except.error (StepErr.replacementPatternErr p)
  | some _, some _ => Except.error StepErr.typeErr
  | _, _ => Except.error StepErr.replacementFormatErr
| _ :: _ => Except.error StepErr.replacementFormatErr

/-- The `replacements` field of a step: falsy values yield no rules; a truthy
list is validated entry by entry; iterating a truthy string or mapping yields
non-mapping elements (characters or keys), hence a format error; iterating a
number or bool is a TypeError. -/
def replacementsOfYaml (v : Option Yaml) : Except StepErr (List (PatNode × List Char)) :=
  match v with
  | none => Except.ok []
  | some (Yaml.ylist xs) => if xs.isEmpty then Except.ok [] else validateReplacementList xs
  | some (Yaml.ystr s) =>
    if s.isEmpty then Except.ok [] else Except.error StepErr.replacementFormatErr
  | some Yaml.ynull => Except.ok []
  | some (Yaml.ybool b) => if b then Except.error StepErr.typeErr else Except.ok []
  | some (Yaml.yint n) => if n = 0 then Except.ok [] else Except.error StepErr.typeErr
  | some (Yaml.yfloat q) => if q = 0 then Except.ok [] else Except.error StepErr.typeErr
  | some (Yaml.ymap kvs) =>
    if kvs.isEmpty then Except.ok [] else Except.error StepErr.replacementFormatErr

/-- A parsed scenario step (`ScenarioStep.__init__`). -/
structure ScenarioStep where
  start_time_seconds : ℚ
  interval_seconds : ℚ
  iterations : ℤ
  parameters : Yaml
  filters : Yaml
  replacements : Yaml
  compiled_filters : List PatNode
  compiled_replacements : List (PatNode × List Char)

/-- `ScenarioStep.__init__` on a step mapping, in source order: parse the
start time (default "0s") and interval (default "10s"), read the iteration
count (default 1), store the raw parameter/filter/replacement fields, then
compile the filters and the rewrite rules. -/
def mkScenarioStep (d : List (List Char × Yaml)) : Except StepErr ScenarioStep := do
  let st ← durationOfYaml (yget d ("start_time".toList)) ("0s".toList)
  let iv ← durationOfYaml (yget d ("interval".toList)) ("10s".toList)
  let it ← iterationsOfYaml (yget d ("iterations".toList))
  let fl ← filtersOfYaml (yget d ("filters".toList))
  let rp ← replacementsOfYaml (yget d ("replacements".toList))
  pure { start_time_seconds := st, interval_seconds := iv, iterations := it,
         parameters := (yget d ("parameters".toList)).getD (Yaml.ymap []),
         filters := (yget d ("filters".toList)).getD (Yaml.ylist []),
         replacements := (yget d ("replacements".toList)).getD (Yaml.ylist []),
         compiled_filters := fl, compiled_replacements := rp }

/-- Construct a step from a YAML element; a non-mapping step datum fails
(`step_data.get` raises AttributeError, wrapped like every step error). -/
def stepOfYaml : Yaml → Except StepErr ScenarioStep
| Yaml.ymap m => mkScenarioStep m
| _ => Except.error StepErr.typeErr

/-- Errors raised by `ScenarioParser` (all surfaced as `ValueError`). -/
inductive ScenarioErr
| notMapping
| missingName
| missingSteps
| emptySteps
| stepErr (idx : ℕ) (e : StepErr)
| negativeStart (idx : ℕ)
deriving DecidableEq

/-- `ScenarioParser._validate_scenario_structure`: the document must be a
mapping with a `name` key and a nonempty `steps` list (absent and non-list
`steps` raise the same error). -/
def validateScenarioStructure (doc : Yaml) : Except ScenarioErr Unit :=
  match doc with
  | Yaml.ymap kvs =>
    if (yget kvs ("name".toList)).isNone then Except.error ScenarioErr.missingName
    else
      match yget kvs ("steps".toList) with
      | some (Yaml.ylist xs) =>
        if xs.isEmpty then Except.error ScenarioErr.emptySteps else Except.ok ()
      | _ => Except.error ScenarioErr.missingSteps
  | _ => Except.error ScenarioErr.notMapping

/-- `ScenarioParser._parse_scenario_steps`: build each step, wrapping any
construction error with the step's 1-based index. -/
def parseScenarioSteps : ℕ → List Yaml → Except ScenarioErr (List ScenarioStep)
| _, [] => Except.ok []
| i, x :: rest =>
  match stepOfYaml x with
  | Except.error e => Except.error (ScenarioErr.stepErr i e)
  | Except.ok s => (parseScenarioSteps (i + 1) rest).map (fun ss => s :: ss)

/-- Stable insertion into a list sorted ascending by start offset: the new
element is placed before the first element with an equal-or-greater start
offset.  In `sortByStart` the inserted element is always declared earlier
than the already-inserted ones, so ties keep the declared relative order,
as in Python's stable `list.sort`. -/
def insertByStart (s : ScenarioStep) : List ScenarioStep → List ScenarioStep
| [] => [s]
| t :: rest =>
  if s.start_time_seconds ≤ t.start_time_seconds then s :: t :: rest
  else t :: insertByStart s rest

/-- The in-place `steps.sort(key=lambda s: s.start_time_seconds)` of
`_validate_step_timing`: a stable ascending sort by start offset (any stable
sort produces the same list as Python's). -/
def sortByStart : List ScenarioStep → List ScenarioStep
| [] => []
| s :: rest => insertByStart s (sortByStart rest)

/-- The negative-start check of `_validate_step_timing`, indexed 1-based
over the (sorted) list. -/
def checkNonNegative : ℕ → List ScenarioStep → Except ScenarioErr Unit
| _, [] => Except.ok ()
| i, s :: rest =>
  if s.start_time_seconds < 0 then Except.error (ScenarioErr.negativeStart i)
  else checkNonNegative (i + 1) rest

/-- `_validate_step_timing`: sort the step list in place (modelled by
returning the sorted list) and reject negative start offsets. -/
def validateStepTiming (steps : List ScenarioStep) : Except ScenarioErr (List ScenarioStep) :=
  let sorted := sortByStart steps
  match checkNonNegative 1 sorted with
  | Except.error e => Except.error e
  | Except.ok _ => Except.ok sorted

/-- A loaded scenario. -/
structure Scenario where
  name : Yaml
  description : Yaml
  steps : List ScenarioStep

/-- The raw `steps` list of a structurally valid document. -/
def stepsOf (doc : Yaml) : List Yaml :=
  match doc with
  | Yaml.ymap kvs =>
    match yget kvs ("steps".toList) with
    | some (Yaml.ylist xs) => xs
    | _ => []
  | _ => []

/-- `ScenarioParser.load_scenario` on an already-decoded document (file
loading and YAML decoding are external): validate the structure, parse the
steps, sort and validate timing, and assemble the scenario (description
defaults to the empty string). -/
def loadScenario (doc : Yaml) : Except ScenarioErr Scenario :=
  match validateScenarioStructure doc with
  | Except.error e => Except.error e
  | Except.ok _ =>
    match doc with
    | Yaml.ymap kvs =>
      match parseScenarioSteps 1 (stepsOf doc) with
      | Except.error e => Except.error e
      | Except.ok steps =>
        match validateStepTiming steps with
        | Except.error e => Except.error e
        | Except.ok sorted =>
          Except.ok { name := (yget kvs ("name".toList)).getD Yaml.ynull,
                      description := (yget kvs ("description".toList)).getD (Yaml.ystr []),
                      steps := sorted }
    | _ => Except.error ScenarioErr.notMapping

/-- Inserting into the stable sort is a permutation. -/
theorem insertByStart_perm (s : ScenarioStep) (l : List ScenarioStep) :
    (insertByStart s l).Perm (s :: l) := by
  induction l with
  | nil => exact List.Perm.refl _
  | cons t rest ih =>
    unfold insertByStart
    by_cases h : s.start_time_seconds ≤ t.start_time_seconds
    · rw [if_pos h]
    · rw [if_neg h]
      exact (List.Perm.cons t ih).trans (List.Perm.swap s t rest)

/-- The stable sort is a permutation of its input. -/
theorem sortByStart_perm : ∀ l : List ScenarioStep, (sortByStart l).Perm l := by
  intro l
  induction l with
  | nil => exact List.Perm.refl _
  | cons s rest ih =>
    exact (insertByStart_perm s (sortByStart rest)).trans (List.Perm.cons s ih)

/-- Insertion preserves ascending order by start offset. -/
theorem insertByStart_sorted (s : ScenarioStep) :
    ∀ l : List ScenarioStep,
      List.Pairwise (fun a b => a.start_time_seconds ≤ b.start_time_seconds) l →
      List.Pairwise (fun a b => a.start_time_seconds ≤ b.start_time_seconds)
        (insertByStart s l) := by
  intro l
  induction l with
  | nil =>
    intro _
    simp [insertByStart]
  | cons t rest ih =>
    intro h
    rw [List.pairwise_cons] at h
    unfold insertByStart
    by_cases hle : s.start_time_seconds ≤ t.start_time_seconds
    · rw [if_pos hle]
      rw [List.pairwise_cons]
      refine ⟨fun b hb => ?_, List.pairwise_cons.mpr h⟩
      rcases List.mem_cons.mp hb with h1 | h2
      · exact h1 ▸ hle
      · exact le_trans hle (h.1 b h2)
    · rw [if_neg hle]
      rw [List.pairwise_cons]
      refine ⟨fun b hb => ?_, ih h.2⟩
      rcases List.mem_cons.mp ((insertByStart_perm s rest).mem_iff.mp hb) with h1 | h2
      · exact h1 ▸ le_of_not_le hle
      · exact h.1 b h2

/-- The sorted step list is ascending by start offset. -/
theorem sortByStart_sorted :
    ∀ l : List ScenarioStep,
      List.Pairwise (fun a b => a.start_time_seconds ≤ b.start_time_seconds)
        (sortByStart l) := by
  intro l
  induction l with
  | nil => exact List.Pairwise.nil
  | cons s rest ih => exact insertByStart_sorted s (sortByStart rest) ih

/-- Inserting an element whose start offset equals `k` places it before every
equal-offset element already present; filtering by offset `k` therefore sees
it first, and other insertions are invisible to the filter. -/
theorem filter_insertByStart (k : ℚ) (s : ScenarioStep) :
    ∀ l : List ScenarioStep,
      (insertByStart s l).filter (fun x => x.start_time_seconds = k) =
        (if s.start_time_seconds = k
          then s :: l.filter (fun x => x.start_time_seconds = k)
          else l.filter (fun x => x.start_time_seconds = k)) := by
  intro l
  induction l with
  | nil =>
    unfold insertByStart
    by_cases hs : s.start_time_seconds = k
    · rw [if_pos hs]
      simp [List.filter, hs]
    · rw [if_neg hs]
      simp [List.filter, hs]
  | cons t rest ih =>
    unfold insertByStart
    by_cases hle : s.start_time_seconds ≤ t.start_time_seconds
    · rw [if_pos hle]
      by_cases hs : s.start_time_seconds = k
      · rw [if_pos hs]
        simp [List.filter_cons, hs]
      · rw [if_neg hs]
        simp [List.filter_cons, hs]
    · rw [if_neg hle]
      rw [List.filter_cons, List.filter_cons, ih]
      by_cases hs : s.start_time_seconds = k
      · rw [if_pos hs, if_pos hs]
        by_cases ht : t.start_time_seconds = k
        · exfalso
          exact hle (le_of_eq (hs.trans ht.symm))
        · simp [ht]
      · rw [if_neg hs, if_neg hs]

/-- Stability of the modelled sort: for every start-offset value, the steps
with that offset appear in the sorted list in their original relative
order. -/
theorem sortByStart_filter (k : ℚ) :
    ∀ l : List ScenarioStep,
      (sortByStart l).filter (fun x => x.start_time_seconds = k) =
        l.filter (fun x => x.start_time_seconds = k) := by
  intro l
  induction l with
  | nil => rfl
  | cons s rest ih =>
    show (insertByStart s (sortByStart rest)).filter _ = _
    rw [filter_insertByStart k s (sortByStart rest), List.filter_cons, ih]
    by_cases hs : s.start_time_seconds = k
    · rw [if_pos hs]
      simp [hs]
    · rw [if_neg hs]
      simp [hs]

/-- The document used to exhibit the reordering: its two steps are declared
with start offsets 30 and 0, in that order. -/
def reorderStepA : Yaml :=
  Yaml.ymap [(("start_time".toList), Yaml.yint 30), (("iterations".toList), Yaml.yint 7)]

/-- The second declared step of the reordering document. -/
def reorderStepB : Yaml :=
  Yaml.ymap [(("start_time".toList), Yaml.yint 0), (("iterations".toList), Yaml.yint 9)]

/-- A valid scenario document whose steps are declared out of start-offset
order. -/
def reorderDoc : Yaml :=
  Yaml.ymap [(("name".toList), Yaml.ystr ("x".toList)),
    (("steps".toList), Yaml.ylist [reorderStepA, reorderStepB])]

/-- C2 (counterexample): loading the document whose steps are declared with
start offsets [30, 0] returns them as [0, 30] — `list.sort` mutates the list
in place, so the steps sequence handed to the executor (and hence the worker
launch order) is the sorted order, not the declared order. -/
theorem c2_order_counterexample :
    (loadScenario reorderDoc).map
        (fun sc => sc.steps.map (fun s => (s.start_time_seconds, s.iterations))) =
      Except.ok [((0:ℚ), (9:ℤ)), ((30:ℚ), (7:ℤ))] ∧
    (parseScenarioSteps 1 (stepsOf reorderDoc)).map
        (fun ss => ss.map (fun s => (s.start_time_seconds, s.iterations))) =
      Except.ok [((30:ℚ), (7:ℤ)), ((0:ℚ), (9:ℤ))] ∧
    ([((0:ℚ), (9:ℤ)), ((30:ℚ), (7:ℤ))] ≠ [((30:ℚ), (7:ℤ)), ((0:ℚ), (9:ℤ))]) :=
  ⟨by decide, by decide, by decide⟩

/-- C2 (amended): the ascending sort by start offset is performed in place on
the step list, so `load_scenario` returns — and `execute_scenario` launches —
the steps in stable sorted order, which is a permutation of the declared
steps, ascending in start offset; stability means that for every start-offset
value the steps carrying it keep their declared relative order.  The result
coincides with the declared order only when that order is already sorted. -/
theorem c2_order_amended :
    ∀ (doc : Yaml) (sc : Scenario) (declared : List ScenarioStep),
      loadScenario doc = Except.ok sc →
      parseScenarioSteps 1 (stepsOf doc) = Except.ok declared →
      sc.steps = sortByStart declared ∧
      sc.steps.Perm declared ∧
      List.Pairwise (fun a b => a.start_time_seconds ≤ b.start_time_seconds) sc.steps ∧
      (∀ k : ℚ, sc.steps.filter (fun x => x.start_time_seconds = k) =
        declared.filter (fun x => x.start_time_seconds = k)) := by
  intro doc sc declared hload hparse
  have hsteps : sc.steps = sortByStart declared := by
    unfold loadScenario at hload
    cases hv : validateScenarioStructure doc with
    | error e => rw [hv] at hload; cases hload
    | ok u =>
      rw [hv] at hload
      cases doc with
      | ymap kvs =>
        rw [hparse] at hload
        dsimp only at hload
        unfold validateStepTiming at hload
        dsimp only at hload
        cases hc : checkNonNegative 1 (sortByStart declared) with
        | error e => rw [hc] at hload; cases hload
        | ok u2 =>
          rw [hc] at hload
          dsimp only at hload
          cases hload
          rfl
      | ynull => cases hload
      | ybool b => cases hload
      | yint n => cases hload
      | yfloat q => cases hload
      | ystr s => cases hload
      | ylist xs => cases hload
  refine ⟨hsteps, ?_, ?_, ?_⟩
  · rw [hsteps]
    exact sortByStart_perm declared
  · rw [hsteps]
    exact sortByStart_sorted declared
  · intro k
    rw [hsteps]
    exact sortByStart_filter k declared

/-- The scenario loaded from the reordering document. -/
def reorderScenario : Scenario :=
  (loadScenario reorderDoc).toOption.getD ⟨Yaml.ynull, Yaml.ynull, []⟩

/-- The declared (unsorted) steps of the reordering document. -/
def reorderDeclared : List ScenarioStep :=
  (parseScenarioSteps 1 (stepsOf reorderDoc)).toOption.getD []

/-- C2 witness: the amended statement applied to the reordering document. -/
theorem c2_order_amended_witness :
    reorderScenario.steps = sortByStart reorderDeclared ∧
    reorderScenario.steps.Perm reorderDeclared ∧
    List.Pairwise (fun a b => a.start_time_seconds ≤ b.start_time_seconds)
      reorderScenario.steps ∧
    reorderScenario.steps.filter (fun x => x.start_time_seconds = 0) =
      reorderDeclared.filter (fun x => x.start_time_seconds = 0) := by
  have h := c2_order_amended reorderDoc reorderScenario reorderDeclared rfl rfl
  exact ⟨h.1, h.2.1, h.2.2.1, h.2.2.2 0⟩

/-- A construction failure after a prefix of well-formed steps surfaces from
`_parse_scenario_steps` wrapped with its 1-based index. -/
theorem parseSteps_error :
    ∀ (pre : List Yaml) (i : ℕ) (d : Yaml) (post : List Yaml) (e : StepErr),
      (∀ s ∈ pre, ∃ s', stepOfYaml s = Except.ok s') →
      stepOfYaml d = Except.error e →
      parseScenarioSteps i (pre ++ d :: post) =
        Except.error (ScenarioErr.stepErr (i + pre.length) e) := by
  intro pre
  induction pre with
  | nil =>
    intro i d post e _ hd
    rw [List.nil_append]
    unfold parseScenarioSteps
    rw [hd]
    simp
  | cons s pre2 ih =>
    intro i d post e hok hd
    obtain ⟨s', hs⟩ := hok s (List.mem_cons_self s pre2)
    rw [List.cons_append]
    unfold parseScenarioSteps
    rw [hs]
    rw [ih (i + 1) d post e (fun x hx => hok x (List.mem_cons_of_mem s hx)) hd]
    simp only [Except.map]
    congr 2
    simp only [List.length_cons]
    omega

/-- C6: scenario loading fails with the corresponding validation error when
the document is not a mapping, lacks `name`, lacks `steps` or has a
non-list `steps` (one shared error), or has empty `steps`; and when any
individual step fails construction after `pre.length` well-formed steps, the
error wraps the underlying cause with the 1-based step index. -/
theorem c6_validation_errors :
    (∀ doc : Yaml, (∀ kvs, doc ≠ Yaml.ymap kvs) →
      loadScenario doc = Except.error ScenarioErr.notMapping) ∧
    (∀ kvs, yget kvs ("name".toList) = none →
      loadScenario (Yaml.ymap kvs) = Except.error ScenarioErr.missingName) ∧
    (∀ kvs, (yget kvs ("name".toList)).isSome →
      (match yget kvs ("steps".toList) with
        | some (Yaml.ylist _) => False
        | _ => True) →
      loadScenario (Yaml.ymap kvs) = Except.error ScenarioErr.missingSteps) ∧
    (∀ kvs, (yget kvs ("name".toList)).isSome →
      yget kvs ("steps".toList) = some (Yaml.ylist []) →
      loadScenario (Yaml.ymap kvs) = Except.error ScenarioErr.emptySteps) ∧
    (∀ (doc : Yaml) (pre : List Yaml) (d : Yaml) (post : List Yaml) (e : StepErr),
      validateScenarioStructure doc = Except.ok () →
      stepsOf doc = pre ++ d :: post →
      (∀ s ∈ pre, ∃ s', stepOfYaml s = Except.ok s') →
      stepOfYaml d = Except.error e →
      loadScenario doc = Except.error (ScenarioErr.stepErr (pre.length + 1) e)) := by
  refine ⟨?_, ?_, ?_, ?_, ?_⟩
  · intro doc h
    cases doc with
    | ymap kvs => exact absurd rfl (h kvs)
    | ynull => rfl
    | ybool b => rfl
    | yint n => rfl
    | yfloat q => rfl
    | ystr s => rfl
    | ylist xs => rfl
  · intro kvs h
    unfold loadScenario validateScenarioStructure
    dsimp only
    rw [h]
    rfl
  · intro kvs hname hsteps
    unfold loadScenario validateScenarioStructure
    dsimp only
    rw [Option.isSome_iff_exists] at hname
    obtain ⟨v, hv⟩ := hname
    rw [hv]
    dsimp only [Option.isNone_some]
    cases hst : yget kvs ("steps".toList) with
    | none => rfl
    | some y =>
      rw [hst] at hsteps
      cases y with
      | ylist xs => exact absurd hsteps (by simp)
      | ynull => rfl
      | ybool b => rfl
      | yint n => rfl
      | yfloat q => rfl
      | ystr s => rfl
      | ymap m => rfl
  · intro kvs hname hsteps
    unfold loadScenario validateScenarioStructure
    dsimp only
    rw [Option.isSome_iff_exists] at hname
    obtain ⟨v, hv⟩ := hname
    rw [hv, hsteps]
    rfl
  · intro doc pre d post e hvalid hsplit hok hd
    unfold loadScenario
    rw [hvalid]
    cases doc with
    | ymap kvs =>
      rw [hsplit, parseSteps_error pre 1 d post e hok hd]
      dsimp only
      congr 1
      congr 1
      omega
    | ynull => cases hvalid
    | ybool b => cases hvalid
    | yint n => cases hvalid
    | yfloat q => cases hvalid
    | ystr s => cases hvalid
    | ylist xs => cases hvalid

/-- C6 witness: each error clause applied at a concrete document; the failing
step document has an unparsable `start_time`, and its 1-based index (2) is
carried in the error. -/
theorem c6_validation_errors_witness :
    loadScenario (Yaml.ystr []) = Except.error ScenarioErr.notMapping ∧
    loadScenario (Yaml.ymap []) = Except.error ScenarioErr.missingName ∧
    loadScenario (Yaml.ymap [(("name".toList), Yaml.ynull)]) =
      Except.error ScenarioErr.missingSteps ∧
    loadScenario (Yaml.ymap [(("name".toList), Yaml.ynull),
        (("steps".toList), Yaml.ylist [])]) =
      Except.error ScenarioErr.emptySteps ∧
    loadScenario (Yaml.ymap [(("name".toList), Yaml.ynull),
        (("steps".toList), Yaml.ylist [Yaml.ymap [],
          Yaml.ymap [(("start_time".toList), Yaml.ystr ("bad".toList))]])]) =
      Except.error (ScenarioErr.stepErr ([Yaml.ymap []].length + 1)
        (StepErr.durationErr ("bad".toList))) := by
  refine ⟨?_, ?_, ?_, ?_, ?_⟩
  · exact c6_validation_errors.1 (Yaml.ystr []) (fun kvs h => Yaml.noConfusion h)
  · exact c6_validation_errors.2.1 [] rfl
  · exact c6_validation_errors.2.2.1 [(("name".toList), Yaml.ynull)] rfl trivial
  · exact c6_validation_errors.2.2.2.1 [(("name".toList), Yaml.ynull),
      (("steps".toList), Yaml.ylist [])] rfl rfl
  · refine c6_validation_errors.2.2.2.2 _ [Yaml.ymap []]
      (Yaml.ymap [(("start_time".toList), Yaml.ystr ("bad".toList))]) [] _ rfl rfl ?_ rfl
    intro s hs
    rw [List.mem_singleton.mp hs]
    exact ⟨_, rfl⟩


/-- End time of a step as computed by `get_total_scenario_duration`:
`start + (iterations - 1) * interval + interval`. -/
def stepEndTime (s : ScenarioStep) : ℚ :=
  s.start_time_seconds + (s.iterations - 1) * s.interval_seconds + s.interval_seconds

/-- `ScenarioParser.get_total_scenario_duration`: 0 for an empty list,
otherwise a running maximum that starts at 0. -/
def getTotalScenarioDuration (steps : List ScenarioStep) : ℚ :=
  match steps with
  | [] => 0
  | _ => steps.foldl (fun m s => max m (stepEndTime s)) 0

/-- The total duration exactly as the claim words it: the maximum of the
step end times over all steps, and 0 for an empty step list. -/
def claimTotalDuration : List ScenarioStep → ℚ
| [] => 0
| s :: rest => rest.foldl (fun m t => max m (stepEndTime t)) (stepEndTime s)

/-- A step record with only the timing fields populated. -/
def mkTimedStep (st iv : ℚ) (it : ℤ) : ScenarioStep :=
  ⟨st, iv, it, Yaml.ymap [], Yaml.ylist [], Yaml.ylist [], [], []⟩

/-- Pulling the left argument out of a running maximum. -/
theorem foldl_max_init (l : List ScenarioStep) :
    ∀ a b : ℚ, l.foldl (fun m s => max m (stepEndTime s)) (max a b) =
      max a (l.foldl (fun m s => max m (stepEndTime s)) b) := by
  induction l with
  | nil => intro a b; rfl
  | cons x xs ih =>
    intro a b
    simp only [List.foldl_cons]
    rw [max_assoc, ih]

/-- C8 (counterexample): for a (reachable, unvalidated) step with iteration
count -1, the code's total duration is 0 — the running maximum starts at 0 —
while the claim's maximum over all steps is the negative end time -30. -/
theorem c8_duration_counterexample :
    getTotalScenarioDuration [mkTimedStep 0 30 (-1)] = 0 ∧
    claimTotalDuration [mkTimedStep 0 30 (-1)] = -30 ∧
    (0 : ℚ) ≠ -30 := by
  refine ⟨?_, ?_, by norm_num⟩
  · show List.foldl _ _ _ = 0
    simp only [List.foldl_cons, List.foldl_nil]
    norm_num [stepEndTime, mkTimedStep]
  · show List.foldl _ _ _ = -30
    simp only [List.foldl_cons, List.foldl_nil]
    norm_num [stepEndTime, mkTimedStep]

/-- C8 (amended): the computed total scenario duration equals the maximum of
0 and the per-step maximum of `startOffset + (iterationCount - 1) * interval
+ interval` (so it equals the claim's plain maximum whenever some step end
is nonnegative, and in particular 0 for an empty list); for the three
example steps it is 150.0. -/
theorem c8_total_duration :
    (∀ steps, getTotalScenarioDuration steps = max 0 (claimTotalDuration steps)) ∧
    getTotalScenarioDuration [mkTimedStep 0 30 2, mkTimedStep 30 60 1, mkTimedStep 60 30 3]
      = 150 := by
  constructor
  · intro steps
    cases steps with
    | nil => simp [getTotalScenarioDuration, claimTotalDuration]
    | cons s rest =>
      show (s :: rest).foldl (fun m t => max m (stepEndTime t)) 0 = _
      rw [List.foldl_cons]
      rw [foldl_max_init rest 0 (stepEndTime s)]
      rfl
  · show List.foldl _ _ _ = 150
    simp only [List.foldl_cons, List.foldl_nil]
    norm_num [stepEndTime, mkTimedStep]

/-- The iteration loop of `step_worker`.  `stop` gives the shared stop flag's
value at each check point (check 0 is the post-offset check, check `i + 1`
is the boundary check before running iteration `i + 1`); `exec i` runs the
1-based iteration `i` (`_execute_step_iteration`) and returns its logged
outcome, or `error` when an exception escapes it (the worker's `except`
catches it and the worker ends).  Returns the executed (iteration, outcome)
pairs in order and whether an exception aborted the loop. -/
def stepWorkerLoop (stop : ℕ → Bool) (exec : ℕ → Except Unit Bool) :
    ℕ → ℕ → List (ℕ × Bool) × Bool
| _, 0 => ([], false)
| i, rem + 1 =>
  if stop (i + 1) then ([], false)
  else
    match exec (i + 1) with
    | Except.error _ => ([], true)
    | Except.ok b =>
      let r := stepWorkerLoop stop exec (i + 1) rem
      ((i + 1, b) :: r.1, r.2)

/-- `ScenarioExecutor._schedule_step`'s worker body after the start-offset
sleep: return immediately when the stop flag is already set, otherwise run
`range(step.iterations)` iterations (zero when the count is ≤ 0). -/
def stepWorker (s : ScenarioStep) (stop : ℕ → Bool) (exec : ℕ → Except Unit Bool) :
    List (ℕ × Bool) × Bool :=
  if stop 0 then ([], false)
  else stepWorkerLoop stop exec 0 s.iterations.toNat

/-- The observable outcome of `execute_scenario`: the returned boolean and
each worker's executed iterations. -/
structure ExecOutcome where
  success : Bool
  workers : List (List (ℕ × Bool) × Bool)

/-- `ScenarioExecutor.execute_scenario`: launch one worker per step in list
order (step numbers are 1-based) and return success.  The source sets
`success = False` only in the `KeyboardInterrupt` handler of the join loop
(modelled by `interrupted`) and in an `except Exception` around scheduling
that no modelled operation can trigger; worker outcomes are logged but never
consulted. -/
def executeScenario (steps : List ScenarioStep) (stop : ℕ → ℕ → Bool)
    (exec : ℕ → ℕ → Except Unit Bool) (interrupted : Bool) : ExecOutcome :=
  { success := !interrupted,
    workers := steps.enum.map (fun p => stepWorker p.2 (stop (p.1 + 1)) (exec (p.1 + 1))) }

/-- Whether some step iteration reported failure (or a worker died on an
exception) during the run. -/
def failureReported (o : ExecOutcome) : Bool :=
  o.workers.any (fun w => w.1.any (fun r => !r.2) || w.2)

/-- `float(parameters["delay"])` as performed by `_create_step_sender`: a
non-numeric string raises `ValueError`.  Such an exception escapes
`_execute_step_iteration` into the worker's own `except`, ending the worker
(the `exec`-error case of `stepWorkerLoop`). -/
def delayParamOfString (s : List Char) : Except Unit PyFloat :=
  match pyFloatOfString s with
  | some f => Except.ok f
  | none => Except.error ()

/-- When iterations 1..j return and iteration j+1 raises, the loop executes
exactly the first j iterations and aborts on the exception. -/
theorem stepWorkerLoop_error (stop : ℕ → Bool) (exec : ℕ → Except Unit Bool)
    (hstop : ∀ k, stop k = false) :
    ∀ (j rem i : ℕ),
      (∀ t, 1 ≤ t → t ≤ j → ∃ b, exec (i + t) = Except.ok b) →
      exec (i + j + 1) = Except.error () →
      j + 1 ≤ rem →
      (stepWorkerLoop stop exec i rem).1.map Prod.fst = List.range' (i + 1) j ∧
      (stepWorkerLoop stop exec i rem).2 = true := by
  intro j
  induction j with
  | zero =>
    intro rem i _ herr hle
    cases rem with
    | zero => exact absurd hle (by omega)
    | succ r =>
      unfold stepWorkerLoop
      rw [hstop (i + 1)]
      simp only [Bool.false_eq_true, if_false]
      rw [show i + 0 + 1 = i + 1 from by omega] at herr
      rw [herr]
      exact ⟨rfl, rfl⟩
  | succ j2 ih =>
    intro rem i hok herr hle
    cases rem with
    | zero => exact absurd hle (by omega)
    | succ r =>
      obtain ⟨b, hb⟩ := hok 1 (by omega) (by omega)
      unfold stepWorkerLoop
      rw [hstop (i + 1)]
      simp only [Bool.false_eq_true, if_false]
      rw [hb]
      dsimp only
      have hok2 : ∀ t, 1 ≤ t → t ≤ j2 → ∃ b2, exec (i + 1 + t) = Except.ok b2 := by
        intro t h1 h2
        have := hok (t + 1) (by omega) (by omega)
        rw [show i + (t + 1) = i + 1 + t from by omega] at this
        exact this
      have herr2 : exec (i + 1 + j2 + 1) = Except.error () := by
        rw [show i + 1 + j2 + 1 = i + (j2 + 1) + 1 from by omega]
        exact herr
      have ih2 := ih r (i + 1) hok2 herr2 (by omega)
      rw [List.range'_succ]
      exact ⟨by rw [List.map_cons, ih2.1], ih2.2⟩

/-- C7 (counterexample): a per-iteration exception is reachable — a step
parameter such as `delay: "abc"` passes scenario loading untouched and makes
`float(...)` raise inside `_create_step_sender` — and it ends the worker
with none of its three configured iterations run, although the stop flag was
never set.  This refutes "never terminates before completing all configured
iterations except when the shared stop flag is set". -/
theorem c7_worker_counterexample :
    delayParamOfString ("abc".toList) = Except.error () ∧
    stepWorker (mkTimedStep 0 10 3) (fun _ => false) (fun _ => Except.error ()) = ([], true) ∧
    (stepWorker (mkTimedStep 0 10 3) (fun _ => false)
      (fun _ => Except.error ())).1.map Prod.fst ≠
      List.range' 1 (mkTimedStep 0 10 3).iterations.toNat :=
  ⟨by decide, by decide, by decide⟩

/-- C7 (amended): a worker terminates without running an iteration when the
stop flag is set at the post-offset check; an iteration count ≤ 0 yields
zero iterations rather than an error; when the stop flag is never set and
every iteration execution returns — in particular when iterations merely
report failure, such as a non-zero generator exit, which is handled inside
the iteration and does not raise — the worker runs exactly iterations
1..iterationCount in order; and when iteration j+1 raises an exception
(e.g. a non-float `delay` parameter failing in `_create_step_sender`) after
j completed iterations, the worker ends early with exactly iterations 1..j
run, without any stop request. -/
theorem c7_worker_amended :
    (∀ (s : ScenarioStep) (stop : ℕ → Bool) (exec : ℕ → Except Unit Bool),
      stop 0 = true → stepWorker s stop exec = ([], false)) ∧
    (∀ (s : ScenarioStep) (stop : ℕ → Bool) (exec : ℕ → Except Unit Bool),
      s.iterations ≤ 0 → stepWorker s stop exec = ([], false)) ∧
    (∀ (s : ScenarioStep) (stop : ℕ → Bool) (exec : ℕ → Except Unit Bool),
      (∀ k, stop k = false) → (∀ i, ∃ b, exec i = Except.ok b) →
      (stepWorker s stop exec).1.map Prod.fst = List.range' 1 s.iterations.toNat ∧
      (stepWorker s stop exec).2 = false) ∧
    (∀ (s : ScenarioStep) (stop : ℕ → Bool) (exec : ℕ → Except Unit Bool) (j : ℕ),
      (∀ k, stop k = false) →
      (∀ t, 1 ≤ t → t ≤ j → ∃ b, exec t = Except.ok b) →
      exec (j + 1) = Except.error () →
      j + 1 ≤ s.iterations.toNat →
      (stepWorker s stop exec).1.map Prod.fst = List.range' 1 j ∧
      (stepWorker s stop exec).2 = true) := by
  have base :
    (∀ (s : ScenarioStep) (stop : ℕ → Bool) (exec : ℕ → Except Unit Bool),
      stop 0 = true → stepWorker s stop exec = ([], false)) ∧
    (∀ (s : ScenarioStep) (stop : ℕ → Bool) (exec : ℕ → Except Unit Bool),
      s.iterations ≤ 0 → stepWorker s stop exec = ([], false)) ∧
    (∀ (s : ScenarioStep) (stop : ℕ → Bool) (exec : ℕ → Except Unit Bool),
      (∀ k, stop k = false) → (∀ i, ∃ b, exec i = Except.ok b) →
      (stepWorker s stop exec).1.map Prod.fst = List.range' 1 s.iterations.toNat ∧
      (stepWorker s stop exec).2 = false) := by
    have loopLemma : ∀ (stop : ℕ → Bool) (exec : ℕ → Except Unit Bool),
        (∀ k, stop k = false) → (∀ i, ∃ b, exec i = Except.ok b) →
        ∀ (rem i : ℕ),
          (stepWorkerLoop stop exec i rem).1.map Prod.fst = List.range' (i + 1) rem ∧
          (stepWorkerLoop stop exec i rem).2 = false := by
      intro stop exec hstop hexec rem
      induction rem with
      | zero => intro i; exact ⟨rfl, rfl⟩
      | succ r ih =>
        intro i
        obtain ⟨b, hb⟩ := hexec (i + 1)
        unfold stepWorkerLoop
        rw [hstop (i + 1)]
        simp only [Bool.false_eq_true, if_false]
        rw [hb]
        dsimp only
        rw [List.range'_succ]
        exact ⟨by rw [List.map_cons, (ih (i + 1)).1], (ih (i + 1)).2⟩
    refine ⟨?_, ?_, ?_⟩
    · intro s stop exec h
      unfold stepWorker
      rw [h]
      rfl
    · intro s stop exec h
      unfold stepWorker
      rw [Int.toNat_of_nonpos h]
      by_cases h0 : stop 0
      · rw [if_pos h0]
      · rw [if_neg h0]
        rfl
    · intro s stop exec hstop hexec
      unfold stepWorker
      rw [hstop 0]
      simp only [Bool.false_eq_true, if_false]
      exact loopLemma stop exec hstop hexec s.iterations.toNat 0
  refine ⟨base.1, base.2.1, base.2.2, ?_⟩
  intro s stop exec j hstop hok herr hle
  unfold stepWorker
  rw [hstop 0]
  simp only [Bool.false_eq_true, if_false]
  have hok0 : ∀ t, 1 ≤ t → t ≤ j → ∃ b, exec (0 + t) = Except.ok b := by
    intro t h1 h2
    rw [Nat.zero_add]
    exact hok t h1 h2
  have herr0 : exec (0 + j + 1) = Except.error () := by
    rw [Nat.zero_add]
    exact herr
  exact stepWorkerLoop_error stop exec hstop j s.iterations.toNat 0 hok0 herr0 hle

/-- C7 witness: the amended clauses applied to concrete workers — a stop
flag set before the first check, an iteration count of -2, a
three-iteration step every iteration of which reports failure yet all of
1..3 execute, and a step whose second iteration raises so that exactly
iteration 1 runs before the worker ends. -/
theorem c7_worker_amended_witness :
    stepWorker (mkTimedStep 0 10 3) (fun _ => true) (fun _ => Except.ok true) = ([], false) ∧
    stepWorker (mkTimedStep 0 10 (-2)) (fun _ => false) (fun _ => Except.ok true) = ([], false) ∧
    ((stepWorker (mkTimedStep 0 10 3) (fun _ => false) (fun _ => Except.ok false)).1.map
        Prod.fst = List.range' 1 (mkTimedStep 0 10 3).iterations.toNat ∧
      (stepWorker (mkTimedStep 0 10 3) (fun _ => false) (fun _ => Except.ok false)).2 = false) ∧
    ((stepWorker (mkTimedStep 0 10 3) (fun _ => false)
        (fun i => if i = 1 then Except.ok false else Except.error ())).1.map Prod.fst =
        List.range' 1 1 ∧
      (stepWorker (mkTimedStep 0 10 3) (fun _ => false)
        (fun i => if i = 1 then Except.ok false else Except.error ())).2 = true) := by
  refine ⟨?_, ?_, ?_, ?_⟩
  · exact c7_worker_amended.1 (mkTimedStep 0 10 3) (fun _ => true) (fun _ => Except.ok true) rfl
  · exact c7_worker_amended.2.1 (mkTimedStep 0 10 (-2)) (fun _ => false)
      (fun _ => Except.ok true) (by decide)
  · exact c7_worker_amended.2.2.1 (mkTimedStep 0 10 3) (fun _ => false)
      (fun _ => Except.ok false) (fun _ => rfl) (fun i => ⟨false, rfl⟩)
  · refine c7_worker_amended.2.2.2 (mkTimedStep 0 10 3) (fun _ => false)
      (fun i => if i = 1 then Except.ok false else Except.error ()) 1 (fun _ => rfl) ?_ rfl
      (by decide)
    intro t h1 h2
    have ht : t = 1 := by omega
    subst ht
    exact ⟨false, rfl⟩

/-- C1 (counterexample): a run whose only step's only iteration reports
failure (as a non-zero generator exit does) while no interruption occurs
still returns success = true — the returned boolean never consults the
iteration outcomes, refuting the claimed "iff". -/
theorem c1_success_counterexample :
    (executeScenario [mkTimedStep 0 10 1] (fun _ _ => false)
      (fun _ _ => Except.ok false) false).success = true ∧
    failureReported (executeScenario [mkTimedStep 0 10 1] (fun _ _ => false)
      (fun _ _ => Except.ok false) false) = true :=
  ⟨rfl, by decide⟩

/-- C1 (amended): the boolean returned by `execute_scenario` is true iff no
operator interruption occurred (and no exception escaped the scheduling
block, which no modelled operation can cause); it is entirely independent of
the per-iteration outcomes and stop-flag schedules of the workers, so step or
iteration failures never make it false. -/
theorem c1_success_amended :
    ∀ (steps : List ScenarioStep) (stop stop2 : ℕ → ℕ → Bool)
      (exec exec2 : ℕ → ℕ → Except Unit Bool) (interrupted : Bool),
      ((executeScenario steps stop exec interrupted).success = true ↔ interrupted = false) ∧
      (executeScenario steps stop exec interrupted).success =
        (executeScenario steps stop2 exec2 interrupted).success := by
  intro steps stop stop2 exec exec2 interrupted
  cases interrupted with
  | false => exact ⟨by simp [executeScenario], rfl⟩
  | true => exact ⟨by simp [executeScenario], rfl⟩

/-- A heap of Python dict objects addressed by reference (list index), used
to model the aliasing behaviour of `_create_step_sender`. -/
structure Store where
  cells : List Dict

/-- Dereference (total, defaulting to an empty dict). -/
def readRef (σ : Store) (r : ℕ) : Dict := σ.cells.getD r []

/-- Allocate a fresh dict object (`.copy()` allocates via this). -/
def allocRef (σ : Store) (d : Dict) : ℕ × Store := (σ.cells.length, ⟨σ.cells ++ [d]⟩)

/-- Overwrite the dict object behind a reference (`dict.update` mutates). -/
def writeRef (σ : Store) (r : ℕ) (d : Dict) : Store := ⟨σ.cells.set r d⟩

/-- `d.update(upd)`: assign every pair of `upd` into `d` in order. -/
def dictUpdate (d upd : Dict) : Dict :=
  upd.foldl (fun acc kv => dictSet acc kv.1 kv.2) d

/-- An OTLP sender object: scalar fields by value, dict fields by
reference (the constructor stores the dicts it is passed). -/
structure SenderObj where
  endpoint : List Char
  service_name : List Char
  delay : ℚ
  log_format : List Char
  otlp_headers : ℕ
  otlp_attributes : ℕ
  telemetry_attributes : ℕ

/-- `d or {}` on a dict reference: keep the reference when the dict is
truthy (nonempty), otherwise allocate a fresh empty dict. -/
def orFresh (σ : Store) (r : ℕ) : ℕ × Store :=
  if (readRef σ r).isEmpty then allocRef σ [] else (r, σ)

/-- `OTLPLogSender.__init__` restricted to the fields the scenario engine
reads: it stores the dict references passed to it, except that a falsy
(empty) dict is replaced by a fresh empty one (`otlp_headers or {}`). -/
def mkSenderObj (σ : Store) (endpoint service_name : List Char) (delay : ℚ)
    (hdrs attrs tattrs : ℕ) (log_format : List Char) : SenderObj × Store :=
  let h := orFresh σ hdrs
  let a := orFresh h.2 attrs
  let t := orFresh a.2 tattrs
  ({ endpoint := endpoint, service_name := service_name, delay := delay,
     log_format := log_format, otlp_headers := h.1, otlp_attributes := a.1,
     telemetry_attributes := t.1 }, t.2)

/-- Typed view of the parameter lookups `_create_step_sender` performs on the
step's `parameters` mapping. -/
structure StepParams where
  format : Option (List Char)
  otlp_attributes : Option (List (List Char))
  telemetry_attributes : Option (List (List Char))
  otlp_header : Option (List (List Char))
  delay : Option ℚ
  service_name : Option (List Char)
  otlp_endpoint : Option (List Char)

/-- The dict-copying constructor call of `_create_step_sender`: the three
`.copy()` argument expressions allocate fresh dicts (in source order), then
the sender constructor runs on the copies. -/
def copyPhase (σ : Store) (base : SenderObj) (fmt : List Char) : SenderObj × Store :=
  let h1 := allocRef σ (readRef σ base.otlp_headers)
  let a1 := allocRef h1.2 (readRef h1.2 base.otlp_attributes)
  let t1 := allocRef a1.2 (readRef a1.2 base.telemetry_attributes)
  mkSenderObj t1.2 base.endpoint base.service_name base.delay h1.1 a1.1 t1.1 fmt

/-- One optional `step_sender.<dict>.update(parse_key_value_pairs(...))`. -/
def updPhase (σ : Store) (r : ℕ) (items : Option (List (List Char))) : Store :=
  match items with
  | some its => writeRef σ r (dictUpdate (readRef σ r) (parse_key_value_pairs its))
  | none => σ

/-- `ScenarioExecutor._create_step_sender`: construct a fresh sender from the
base sender's scalar values and copies of its three dicts, then apply the
step-specific overrides (attribute/header updates and scalar overrides) to
the fresh object only. -/
def createStepSender (σ : Store) (base : SenderObj) (p : StepParams) : SenderObj × Store :=
  let cs := copyPhase σ base (p.format.getD base.log_format)
  let σ5 := updPhase cs.2 cs.1.otlp_attributes p.otlp_attributes
  let σ6 := updPhase σ5 cs.1.telemetry_attributes p.telemetry_attributes
  let σ7 := updPhase σ6 cs.1.otlp_headers p.otlp_header
  ({ cs.1 with delay := p.delay.getD cs.1.delay,
               service_name := p.service_name.getD cs.1.service_name,
               endpoint := p.otlp_endpoint.getD cs.1.endpoint }, σ7)

/-- One store extends another when its cells start with the other's cells
(no pre-existing object was overwritten). -/
def StoreExt (σ σ2 : Store) : Prop := ∃ rest, σ2.cells = σ.cells ++ rest

/-- Setting an index past a prefix leaves the prefix intact. -/
theorem set_append_of_le :
    ∀ (pre xs : List Dict) (r : ℕ) (d : Dict), pre.length ≤ r →
      (pre ++ xs).set r d = pre ++ xs.set (r - pre.length) d := by
  intro pre
  induction pre with
  | nil => intro xs r d _; simp
  | cons c cs ih =>
    intro xs r d h
    cases r with
    | zero => cases h
    | succ r2 =>
      simp only [List.cons_append, List.set_cons_succ, List.length_cons]
      rw [ih xs r2 d (Nat.le_of_succ_le_succ h)]
      have hidx : r2 + 1 - (cs.length + 1) = r2 - cs.length := by omega
      rw [hidx]

theorem storeExt_refl (σ : Store) : StoreExt σ σ := ⟨[], by simp⟩

theorem storeExt_alloc (σ2 σ : Store) (d : Dict) (h : StoreExt σ σ2) :
    StoreExt σ (allocRef σ2 d).2 := by
  obtain ⟨rest, hr⟩ := h
  exact ⟨rest ++ [d], by simp [allocRef, hr]⟩

theorem storeExt_write (σ2 σ : Store) (r : ℕ) (d : Dict) (h : StoreExt σ σ2)
    (hr : σ.cells.length ≤ r) : StoreExt σ (writeRef σ2 r d) := by
  obtain ⟨rest, hrest⟩ := h
  refine ⟨rest.set (r - σ.cells.length) d, ?_⟩
  simp only [writeRef, hrest]
  exact set_append_of_le σ.cells rest r d hr

theorem storeExt_length (σ σ2 : Store) (h : StoreExt σ σ2) :
    σ.cells.length ≤ σ2.cells.length := by
  obtain ⟨rest, hr⟩ := h
  simp [hr]

theorem storeExt_readRef (σ σ2 : Store) (r : ℕ) (h : StoreExt σ σ2)
    (hr : r < σ.cells.length) : readRef σ2 r = readRef σ r := by
  obtain ⟨rest, hrest⟩ := h
  simp only [readRef, hrest]
  exact List.getD_append _ _ _ _ hr

/-- `orFresh` only ever allocates, and returns either the given reference or
a reference at or past the current end of the store. -/
theorem orFresh_ext (σ0 σ : Store) (r : ℕ) (hext : StoreExt σ0 σ) :
    StoreExt σ0 (orFresh σ r).2 ∧
    ((orFresh σ r).1 = r ∨ σ0.cells.length ≤ (orFresh σ r).1) := by
  unfold orFresh
  by_cases c : (readRef σ r).isEmpty
  · rw [if_pos c]
    refine ⟨storeExt_alloc σ σ0 [] hext, Or.inr ?_⟩
    exact storeExt_length σ0 σ hext
  · rw [if_neg c]
    exact ⟨hext, Or.inl rfl⟩

/-- The constructor only ever allocates; each stored dict reference is either
the one passed in or freshly allocated. -/
theorem mkSenderObj_ext (σ : Store) (e sn : List Char) (dl : ℚ) (hr ar tr : ℕ)
    (f : List Char) :
    StoreExt σ (mkSenderObj σ e sn dl hr ar tr f).2 ∧
    ((mkSenderObj σ e sn dl hr ar tr f).1.otlp_headers = hr ∨
      σ.cells.length ≤ (mkSenderObj σ e sn dl hr ar tr f).1.otlp_headers) ∧
    ((mkSenderObj σ e sn dl hr ar tr f).1.otlp_attributes = ar ∨
      σ.cells.length ≤ (mkSenderObj σ e sn dl hr ar tr f).1.otlp_attributes) ∧
    ((mkSenderObj σ e sn dl hr ar tr f).1.telemetry_attributes = tr ∨
      σ.cells.length ≤ (mkSenderObj σ e sn dl hr ar tr f).1.telemetry_attributes) := by
  have e1 := orFresh_ext σ σ hr (storeExt_refl σ)
  have e2 := orFresh_ext σ (orFresh σ hr).2 ar e1.1
  have e3 := orFresh_ext σ (orFresh (orFresh σ hr).2 ar).2 tr e2.1
  exact ⟨e3.1, e1.2, e2.2, e3.2⟩

/-- Store extension is transitive. -/
theorem storeExt_trans (σ1 σ2 σ3 : Store) (h12 : StoreExt σ1 σ2) (h23 : StoreExt σ2 σ3) :
    StoreExt σ1 σ3 := by
  obtain ⟨r1, e1⟩ := h12
  obtain ⟨r2, e2⟩ := h23
  exact ⟨r1 ++ r2, by rw [e2, e1, List.append_assoc]⟩

/-- The copy-and-construct phase only allocates: the original store is a
prefix of the new one, and all three dict references of the fresh sender lie
at or past the original store's end (they are copies, never the base's). -/
theorem copyPhase_ext (σ : Store) (base : SenderObj) (fmt : List Char) :
    StoreExt σ (copyPhase σ base fmt).2 ∧
    σ.cells.length ≤ (copyPhase σ base fmt).1.otlp_headers ∧
    σ.cells.length ≤ (copyPhase σ base fmt).1.otlp_attributes ∧
    σ.cells.length ≤ (copyPhase σ base fmt).1.telemetry_attributes := by
  set d1 := readRef σ base.otlp_headers with hd1
  set σ1 := (allocRef σ d1).2 with hσ1
  set d2 := readRef σ1 base.otlp_attributes with hd2
  set σ2 := (allocRef σ1 d2).2 with hσ2
  set d3 := readRef σ2 base.telemetry_attributes with hd3
  set σ3 := (allocRef σ2 d3).2 with hσ3
  show StoreExt σ (mkSenderObj σ3 base.endpoint base.service_name base.delay
      (allocRef σ d1).1 (allocRef σ1 d2).1 (allocRef σ2 d3).1 fmt).2 ∧
    σ.cells.length ≤ (mkSenderObj σ3 base.endpoint base.service_name base.delay
      (allocRef σ d1).1 (allocRef σ1 d2).1 (allocRef σ2 d3).1 fmt).1.otlp_headers ∧
    σ.cells.length ≤ (mkSenderObj σ3 base.endpoint base.service_name base.delay
      (allocRef σ d1).1 (allocRef σ1 d2).1 (allocRef σ2 d3).1 fmt).1.otlp_attributes ∧
    σ.cells.length ≤ (mkSenderObj σ3 base.endpoint base.service_name base.delay
      (allocRef σ d1).1 (allocRef σ1 d2).1 (allocRef σ2 d3).1 fmt).1.telemetry_attributes
  have h1 : StoreExt σ σ1 := storeExt_alloc σ σ d1 (storeExt_refl σ)
  have h2 : StoreExt σ σ2 := storeExt_alloc σ1 σ d2 h1
  have h3 : StoreExt σ σ3 := storeExt_alloc σ2 σ d3 h2
  have hmk := mkSenderObj_ext σ3 base.endpoint base.service_name base.delay
    (allocRef σ d1).1 (allocRef σ1 d2).1 (allocRef σ2 d3).1 fmt
  refine ⟨storeExt_trans σ σ3 _ h3 hmk.1, ?_, ?_, ?_⟩
  · rcases hmk.2.1 with heq | hge
    · rw [heq]
      exact Nat.le_refl _
    · exact Nat.le_trans (storeExt_length σ σ3 h3) hge
  · rcases hmk.2.2.1 with heq | hge
    · rw [heq]
      exact storeExt_length σ σ1 h1
    · exact Nat.le_trans (storeExt_length σ σ3 h3) hge
  · rcases hmk.2.2.2 with heq | hge
    · rw [heq]
      exact storeExt_length σ σ2 h2
    · exact Nat.le_trans (storeExt_length σ σ3 h3) hge

/-- An optional attribute update writes only at the given (fresh)
reference. -/
theorem updPhase_ext (σ0 σ : Store) (r : ℕ) (its : Option (List (List Char)))
    (hext : StoreExt σ0 σ) (hr : σ0.cells.length ≤ r) : StoreExt σ0 (updPhase σ r its) := by
  cases its with
  | none => exact hext
  | some l => exact storeExt_write σ σ0 r _ hext hr

/-- C9: creating the per-iteration step sender leaves every pre-existing
dict object — in particular the base sender's headers and both attribute
mappings — unchanged, for every base sender, store and parameter
combination; the new sender's three dict references are fresh (at or past
the original store's end), so the step-specific overrides touch only copied
state.  The base sender record itself is a value and is only read. -/
theorem c9_step_sender_frame :
    ∀ (σ : Store) (base : SenderObj) (p : StepParams) (r : ℕ),
      r < σ.cells.length →
      readRef (createStepSender σ base p).2 r = readRef σ r ∧
      σ.cells.length ≤ (createStepSender σ base p).1.otlp_headers ∧
      σ.cells.length ≤ (createStepSender σ base p).1.otlp_attributes ∧
      σ.cells.length ≤ (createStepSender σ base p).1.telemetry_attributes := by
  intro σ base p r hrlt
  have hcp := copyPhase_ext σ base (p.format.getD base.log_format)
  have h5 := updPhase_ext σ (copyPhase σ base (p.format.getD base.log_format)).2
    (copyPhase σ base (p.format.getD base.log_format)).1.otlp_attributes
    p.otlp_attributes hcp.1 hcp.2.2.1
  have h6 := updPhase_ext σ _
    (copyPhase σ base (p.format.getD base.log_format)).1.telemetry_attributes
    p.telemetry_attributes h5 hcp.2.2.2
  have h7 := updPhase_ext σ _
    (copyPhase σ base (p.format.getD base.log_format)).1.otlp_headers
    p.otlp_header h6 hcp.2.1
  exact ⟨storeExt_readRef σ _ r h7 hrlt, hcp.2.1, hcp.2.2.1, hcp.2.2.2⟩

/-- A one-cell store for the C9 witness. -/
def witStore : Store := ⟨[[(("k".toList), PyVal.pyint 1)]]⟩

/-- A base sender whose three dict fields all reference cell 0. -/
def witBase : SenderObj := ⟨("e".toList), ("svc".toList), 0, ("fmt".toList), 0, 0, 0⟩

/-- Step parameters that override attributes, headers, delay and endpoint. -/
def witParams : StepParams :=
  ⟨some ("json".toList), some [("a=1".toList)], some [("b=2".toList)],
    some [("h=x".toList)], some 2, some ("s2".toList), some ("e2".toList)⟩

/-- C9 witness: the frame theorem applied at the concrete one-cell store —
cell 0 (the base sender's shared dict) is unchanged by a step-sender
creation that overrides attributes, headers and scalars. -/
theorem c9_step_sender_frame_witness :
    readRef (createStepSender witStore witBase witParams).2 0 = readRef witStore 0 ∧
    witStore.cells.length ≤ (createStepSender witStore witBase witParams).1.otlp_headers ∧
    witStore.cells.length ≤ (createStepSender witStore witBase witParams).1.otlp_attributes ∧
    witStore.cells.length ≤
      (createStepSender witStore witBase witParams).1.telemetry_attributes :=
  c9_step_sender_frame witStore witBase witParams 0 (by decide)


end FlogOtlp
